import Mathlib

/-!
# SSD1309 OLED driver (`oled.cc`, `oled.h`)

A shallow embedding of the driver.  The I2C bus is an explicit state: it keeps
the list of the writes performed so far and an oracle that gives the integer
each write returns.  Every member function of `OLED` becomes a function from
the driver state to the new driver state (and a result, for the two `bool`
functions).

Conventions:
* `uint8_t` values are natural numbers; where the C++ code converts an `int`
  expression to `uint8_t` (at a call), the embedding writes `% 256`;
* `for (uint8_t i = 0; i < bound; i++)` is `forU8`, whose counter wraps at 256;
* a `const char *` text is the list of the bytes it points to; reading stops at
  the first zero byte (the end of the list counts as the terminator);
* `char` is unsigned (the ARM ABI of the mbed targets the driver is written for);
* `font_` and the `data` tile arrays are pointers in C++; they are functions
  from an index to the byte stored there.
-/

/-- One call of `i2c_.write(address, buf, 2)`: the address and the bytes of `buf`. -/
structure BusWrite where
  address : Nat
  buf : List Nat
deriving DecidableEq, Repr

/-- The bus `mbed::I2C`: `ret k` is the integer the write number `k` (from 0) returns,
`log` holds the writes made so far, oldest first. -/
structure I2C where
  ret : Nat → Int
  log : List BusWrite

/-- The call `i2c_.write(address, buf, 2)`: records the write, returns what the bus answers. -/
def I2C.write (bus : I2C) (address : Nat) (buf : List Nat) : Int × I2C :=
  (bus.ret bus.log.length, { bus with log := bus.log ++ [⟨address, buf⟩] })

/-- The driver object: the members `i2c_`, `address_` and the static `font_`
(the table `GetFont5x8()` returns, which is not part of the repository's sources). -/
structure OLED where
  i2c_ : I2C
  address_ : Nat
  font_ : Int → Nat → Nat

/-- Conversion of an `int` to `uint8_t`. -/
def toU8 (n : Int) : Nat := (n % 256).toNat

/-- The loop `for (uint8_t i = start; i < bound; i++) body(i)` over a state `σ`;
the bound is an 8-bit value and the counter is incremented as a `uint8_t`. -/
def forU8 {σ : Type} (bound : Nat) (body : Nat → σ → σ) (i : Nat) (s : σ) : σ :=
  if i < bound % 256 then forU8 bound body ((i + 1) % 256) (body i s) else s
termination_by bound % 256 - i
decreasing_by omega

/-- The enumeration `enum class Align`, as its underlying `int` value. -/
structure Align where
  val : Int
deriving DecidableEq, Repr

/-- The enumerator `Align::Left`. -/
def Align.Left : Align := ⟨0⟩

/-- The enumerator `Align::Center`. -/
def Align.Center : Align := ⟨1⟩

/-- The enumerator `Align::Right`. -/
def Align.Right : Align := ⟨2⟩

/-- The number of values of `size_t` (32 bits on the mbed targets). -/
def sizeMod : Nat := 2 ^ 32

/-- Multiplication in `size_t`. -/
def mulSize (a b : Nat) : Nat := (a * b) % sizeMod

/-- Subtraction in `size_t`. -/
def subSize (a b : Nat) : Nat := (a % sizeMod + sizeMod - b % sizeMod) % sizeMod

/-- The C library function `strlen`: the number of bytes before the first zero byte. -/
def strlen : List Nat → Nat
  | [] => 0
  | c :: cs => if c = 0 then 0 else strlen cs + 1

/-- The character codes of a string literal. -/
def cstr (s : String) : List Nat := s.toList.map Char.toNat

/-- The decimal digits of `n` as character codes, most significant first, produced by
repeated division by ten; `fuel` bounds the number of digits. -/
def utoaAux : Nat → Nat → List Nat → List Nat
  | 0, _, acc => acc
  | fuel + 1, n, acc =>
    if n / 10 = 0 then (48 + n % 10) :: acc
    else utoaAux fuel (n / 10) ((48 + n % 10) :: acc)

/-- The decimal digits of `n` as character codes. -/
def utoa (n : Nat) : List Nat := utoaAux (n + 1) n []

/-- The output of the conversion `d` for the value `v`, with the flag `0` (`zero`) and the
field width `w`: sign, padding up to the width, digits (ISO C, 7.21.6.1). -/
def convD (zero : Bool) (w : Nat) (v : Int) : List Nat :=
  let digits := utoa v.natAbs
  let sign := if v < 0 then [45] else []
  let pad := w - (sign.length + digits.length)
  if zero then sign ++ List.replicate pad 48 ++ digits
  else List.replicate pad 32 ++ sign ++ digits

/-- Where the scan of a format string stands: in ordinary text, or inside a conversion
specification after `%` with the flag `0` seen or not, the width read so far, and whether
a width digit was read. -/
inductive FmtState where
  | text
  | spec (zero : Bool) (w : Nat) (inWidth : Bool)

/-- The scan of the format string by `sprintf`.  The fragment covered: ordinary characters,
`%%`, and `%[0][width]d` (or `i`).  The result is `none` for a conversion with no argument
left (undefined behaviour) and also for every other conversion specification (`%x`, `%u`,
`%+d`, `%-5d`, ...): there the C library has a result that this fragment does not describe.
Statements about all formats use `OLED.DrawIntWith` instead. -/
def sprintfAux : List Nat → FmtState → List Int → List Nat → Option (List Nat)
  | [], FmtState.text, _, out => some out
  | [], FmtState.spec _ _ _, _, _ => none
  | c :: fmt, FmtState.text, args, out =>
    if c = 0 then some out
    else if c = 37 then sprintfAux fmt (FmtState.spec false 0 false) args out
    else sprintfAux fmt FmtState.text args (out ++ [c])
  | c :: fmt, FmtState.spec zero w inWidth, args, out =>
    if c = 37 ∧ zero = false ∧ inWidth = false then sprintfAux fmt FmtState.text args (out ++ [37])
    else if c = 48 ∧ inWidth = false then sprintfAux fmt (FmtState.spec true w false) args out
    else if 48 ≤ c ∧ c ≤ 57 then sprintfAux fmt (FmtState.spec zero (w * 10 + (c - 48)) true) args out
    else if c = 100 ∨ c = 105 then
      match args with
      | [] => none
      | v :: args => sprintfAux fmt FmtState.text args (out ++ convD zero w v)
    else none

/-- The C library function `sprintf(buf, format, args...)` (not part of the driver, described
here after the C standard): the characters written to `buf` before the terminating zero. -/
def sprintf (format : List Nat) (args : List Int) : Option (List Nat) :=
  sprintfAux format FmtState.text args []

namespace OLED

/-- The constructor `OLED::OLED(sda, scl, address)`: `address_ = address << 1`. -/
def construct (bus : I2C) (font : Int → Nat → Nat) (address : Nat) : OLED :=
  { i2c_ := bus, address_ := (address <<< 1) % 256, font_ := font }

/-- The function `OLED::SendCommand`. -/
def SendCommand (o : OLED) (cmd : Nat) : Bool × OLED :=
  let buf := [0x00, cmd]
  let r := o.i2c_.write o.address_ buf
  (if r.1 = 0 then true else false, { o with i2c_ := r.2 })

/-- The function `OLED::SendData`. -/
def SendData (o : OLED) (data : Nat) : Bool × OLED :=
  let buf := [0x40, data]
  let r := o.i2c_.write o.address_ buf
  (if r.1 = 0 then true else false, { o with i2c_ := r.2 })

/-- The function `OLED::SetCursor`. -/
def SetCursor (o : OLED) (x row : Nat) : OLED :=
  let o := (o.SendCommand ((0xB0 + row) % 256)).2
  let o := (o.SendCommand ((0x00 + (x &&& 0x0F)) % 256)).2
  let o := (o.SendCommand ((0x10 + ((x >>> 4) &&& 0x0F)) % 256)).2
  o

/-- The function `OLED::Clear`. -/
def Clear (o : OLED) : OLED :=
  forU8 8 (fun row o =>
    let o := o.SetCursor 0 row
    forU8 128 (fun _ o => (o.SendData 0x00).2) 0 o) 0 o

/-- The function `OLED::Fill`. -/
def Fill (o : OLED) : OLED :=
  forU8 8 (fun row o =>
    let o := o.SetCursor 0 row
    forU8 128 (fun _ o => (o.SendData 0xFF).2) 0 o) 0 o

/-- The function `OLED::DrawPoint`. -/
def DrawPoint (o : OLED) (x y : Nat) : OLED :=
  let o := o.SetCursor x ((y / 8) % 256)
  (o.SendData ((0x01 <<< (y % 8)) % 256)).2

/-- The function `OLED::DrawChar`; `~b` on the promoted byte `b` is the `int` value `-b - 1`. -/
def DrawChar (o : OLED) (data : Nat) (reserve : Bool) : OLED :=
  let o := forU8 5 (fun i o =>
    if reserve then (o.SendData (toU8 (-(o.font_ ((data : Int) - 32) i : Int) - 1))).2
    else (o.SendData (o.font_ ((data : Int) - 32) i)).2) 0 o
  if reserve then (o.SendData 0xFF).2
  else (o.SendData 0x00).2

/-- The loop `while (*text) { DrawChar(*text++, reserve); }` of both `DrawText` functions. -/
def whileText (reserve : Bool) : List Nat → OLED → OLED
  | [], o => o
  | c :: text, o => if c = 0 then o else whileText reserve text (o.DrawChar c reserve)

/-- The function `OLED::DrawText(const char*, uint8_t, uint8_t, bool)` (explicit column);
`reserve` defaults to `false` in `oled.h`. -/
def DrawText (o : OLED) (text : List Nat) (row x : Nat) (reserve : Bool) : OLED :=
  let o := o.SetCursor x row
  let o := if reserve then (o.SendData 0xFF).2 else (o.SendData 0x00).2
  whileText reserve text o

/-- The function `OLED::DrawText(const char*, uint8_t, Align, bool)` (alignment form).
`128-strlen(text)*6` is computed in `size_t`, the result is converted to `uint8_t`. -/
def DrawTextAlign (o : OLED) (text : List Nat) (row : Nat) (align : Align) (reserve : Bool) :
    OLED :=
  let o :=
    if align = Align.Left then o.SetCursor 0 row
    else if align = Align.Center then
      o.SetCursor ((subSize 128 (mulSize (strlen text) 6) / 2) % 256) row
    else if align = Align.Right then
      o.SetCursor ((subSize 128 (mulSize (strlen text) 6)) % 256) row
    else o.SetCursor 0 row
  let o := if reserve then (o.SendData 0xFF).2 else (o.SendData 0x00).2
  whileText reserve text o

/-- The function `OLED::DrawInt(int, uint8_t, uint8_t, const char*)`.  `buf` has 10 bytes:
the result is `none` (undefined behaviour) when `sprintf` writes more than 10 bytes, the
terminating zero included, or when the format is outside the modelled fragment.  The call
`DrawText(buf, row, x)` selects the explicit-column overload with `reserve = false`. -/
def DrawInt (o : OLED) (num : Int) (row x : Nat) (option : List Nat) : Option OLED :=
  match sprintf option [num] with
  | none => none
  | some s => if s.length + 1 ≤ 10 then some (o.DrawText (s ++ [0]) row x false) else none

/-- The function `OLED::DrawInt(int, uint8_t, Align, const char*)`; as `DrawInt`, with the
alignment overload of `DrawText`. -/
def DrawIntAlign (o : OLED) (num : Int) (row : Nat) (align : Align) (option : List Nat) :
    Option OLED :=
  match sprintf option [num] with
  | none => none
  | some s => if s.length + 1 ≤ 10 then some (o.DrawTextAlign (s ++ [0]) row align false) else none

/-- The function `OLED::DrawData`; `data t i` is `data[t][i]`. -/
def DrawData (o : OLED) (data : Nat → Nat → Nat) (row x max_row max_column : Nat) : OLED :=
  forU8 max_row (fun r o =>
    forU8 max_column (fun column o =>
      let o := o.SetCursor ((column * 8 + x) % 256) ((r + row) % 256)
      forU8 8 (fun i o => (o.SendData (data (r * max_column + column) i)).2) 0 o) 0 o) 0 o

/-- The function `OLED::DrawQR`: the body is `DrawData(data, x, row, 5, 5)`. -/
def DrawQR (o : OLED) (data : Nat → Nat → Nat) (row x : Nat) : OLED :=
  o.DrawData data x row 5 5

end OLED

/-! ## Frames and traces (specification side) -/

/-- A command frame: the two-byte write `[0x00, b]` to the device at `addr`. -/
def cmdFrame (addr b : Nat) : BusWrite := ⟨addr, [0x00, b]⟩

/-- A data frame: the two-byte write `[0x40, b]` to the device at `addr`. -/
def dataFrame (addr b : Nat) : BusWrite := ⟨addr, [0x40, b]⟩

/-- The driver state after the writes `fs` have been appended to the bus log. -/
def OLED.emit (o : OLED) (fs : List BusWrite) : OLED :=
  { o with i2c_ := { o.i2c_ with log := o.i2c_.log ++ fs } }

/-- The cursor-set sequence for column `x` and page `row`: the page command (an 8-bit
value), the column low nibble command, the column high nibble command. -/
def cursorFrames (addr x row : Nat) : List BusWrite :=
  [cmdFrame addr ((0xB0 + row) % 256), cmdFrame addr (x &&& 0x0F),
   cmdFrame addr (0x10 + ((x >>> 4) &&& 0x0F))]

/-- The block of 11 frames of one tile: the cursor-set for column `x` and page `row`, then
the eight bytes of the tile. -/
def tileFrames (addr : Nat) (tile : Nat → Nat) (x row : Nat) : List BusWrite :=
  cursorFrames addr x row ++ (List.range 8).map (fun i => dataFrame addr (tile i))

/-- The trace of a blit of `max_row` by `max_column` tiles with top page `row` and left
column `x`: the tiles in row-major order, tile (r, c) at column `(c*8 + x) mod 256` and page
`(r + row) mod 256`. -/
def blitTrace (addr : Nat) (data : Nat → Nat → Nat) (row x max_row max_column : Nat) :
    List BusWrite :=
  (List.range max_row).flatMap (fun r =>
    (List.range max_column).flatMap (fun c =>
      tileFrames addr (data (r * max_column + c)) ((c * 8 + x) % 256) ((r + row) % 256)))

/-- Whether a bus write is a data frame (control byte 0x40). -/
def isData (f : BusWrite) : Bool := f.buf.head? = some 0x40

/-- Whether a bus write is a command frame (control byte 0x00). -/
def isCmd (f : BusWrite) : Bool := f.buf.head? = some 0x00

/-- The trace of a whole-screen write of the byte `b`: for each page 0..7 in increasing
order, the cursor-set for column 0 of the page, then 128 data frames carrying `b`. -/
def screenTrace (addr b : Nat) : List BusWrite :=
  (List.range 8).flatMap (fun p =>
    [cmdFrame addr (0xB0 + p), cmdFrame addr 0x00, cmdFrame addr 0x10] ++
      List.replicate 128 (dataFrame addr b))

/-- A driver on a fresh bus that acknowledges every write, at the default address 0x3C,
whose glyph table holds the pattern `7C 12 11 12 7C` at index 33 and zero elsewhere. -/
def sampleOLED : OLED :=
  OLED.construct ⟨fun _ => 0, []⟩
    (fun g i => if g = 33 then [0x7C, 0x12, 0x11, 0x12, 0x7C].getD i 0 else 0) 0x3C

/-- The six data frames of one character cell: the five bytes of table entry `c - 32`
(complemented when `reserve`), then the spacer (0xFF when `reserve`, else 0x00). -/
def glyphFrames (addr : Nat) (font : Int → Nat → Nat) (reserve : Bool) (c : Nat) :
    List BusWrite :=
  (List.range 5).map (fun i => dataFrame addr
      (if reserve = true then 255 - font ((c : Int) - 32) i else font ((c : Int) - 32) i)) ++
    [dataFrame addr (if reserve = true then 0xFF else 0x00)]

/-- The characters of a C string: the bytes before the first zero byte. -/
def cstring (text : List Nat) : List Nat := text.takeWhile (fun c => c != 0)

/-- The six data frames `DrawChar` sends for one character, on every glyph table: the
five entries of table row `c - 32` (for `reserve`, the `int` value `~b` converted to
`uint8_t`), then the spacer. -/
def cellFrames (addr : Nat) (font : Int → Nat → Nat) (reserve : Bool) (c : Nat) :
    List BusWrite :=
  (List.range 5).map (fun i => dataFrame addr
      (if reserve = true then toU8 (-(font ((c : Int) - 32) i : Int) - 1)
       else font ((c : Int) - 32) i)) ++
    [dataFrame addr (if reserve = true then 0xFF else 0x00)]

/-- The data frames of a text run: the background byte, then the cell of each character of
the C string. -/
def textFrames (addr : Nat) (font : Int → Nat → Nat) (reserve : Bool) (text : List Nat) :
    List BusWrite :=
  dataFrame addr (if reserve = true then 0xFF else 0x00) ::
    (cstring text).flatMap (cellFrames addr font reserve)

/-- The column the alignment form of `DrawText` passes to `SetCursor`. -/
def alignColumn (align : Align) (text : List Nat) : Nat :=
  if align = Align.Left then 0
  else if align = Align.Center then (subSize 128 (mulSize (strlen text) 6) / 2) % 256
  else if align = Align.Right then (subSize 128 (mulSize (strlen text) 6)) % 256
  else 0

/-- The trace of `DrawData` on arbitrary arguments: the loop bounds are the 8-bit values of
`max_row` and `max_column`. -/
def blitTraceU8 (addr : Nat) (data : Nat → Nat → Nat) (row x max_row max_column : Nat) :
    List BusWrite :=
  (List.range (max_row % 256)).flatMap (fun r =>
    (List.range (max_column % 256)).flatMap (fun c =>
      tileFrames addr (data (r * max_column + c)) ((c * 8 + x) % 256) ((r + row) % 256)))

/-- The driver `o` on a bus whose writes return what the oracle `ret` says. -/
def OLED.withRet (o : OLED) (ret : Nat → Int) : OLED :=
  { o with i2c_ := { o.i2c_ with ret := ret } }

/-- Every maximal run of consecutive data frames of the trace `t` is immediately preceded
by a cursor-set sequence of `t`: wherever a data frame `d` of `t` is not itself preceded by
a data frame (so `d` begins a run), the part of `t` before `d` ends with the three commands
of a cursor-set.  A trace that begins with a data frame does not satisfy this. -/
def CursorBeforeData (addr : Nat) (t : List BusWrite) : Prop :=
  ∀ pre d post, t = pre ++ d :: post → isData d = true →
    (∀ e, pre.getLast? = some e → isData e = false) →
    ∃ pre' x row, pre = pre' ++ cursorFrames addr x row

/-- The trace does not begin with a data frame. -/
def NoLeadingData (t : List BusWrite) : Prop :=
  ∀ d, t.head? = some d → isData d = false

/-- The display controller as the specification describes it (hardware, not part of the
driver's sources): the cursor, a page and a column, and the display memory, one byte for
each column of each of the 8 pages of 128 columns. -/
structure Controller where
  page : Nat
  column : Nat
  ram : Nat → Nat → Nat

/-- The effect of one frame on the controller.  A data frame replaces the byte at the
cursor and moves the cursor to the next column, back to column 0 after column 127.  The
commands 0xB0..0xB7 set the page, 0x00..0x0F the low nibble of the column, 0x10..0x1F its
high nibble; any other frame leaves cursor and memory as they are. -/
def Controller.step (s : Controller) (f : BusWrite) : Controller :=
  match f.buf with
  | [ctl, b] =>
    if ctl = 0x40 then
      { page := s.page,
        column := if s.column + 1 < 128 then s.column + 1 else 0,
        ram := fun p c => if p = s.page ∧ c = s.column then b else s.ram p c }
    else if ctl = 0x00 then
      if 0xB0 ≤ b ∧ b ≤ 0xB7 then { s with page := b - 0xB0 }
      else if b ≤ 0x0F then { s with column := s.column / 16 * 16 + b }
      else if 0x10 ≤ b ∧ b ≤ 0x1F then { s with column := (b - 0x10) * 16 + s.column % 16 }
      else s
    else s
  | _ => s

/-- The controller after a sequence of frames. -/
def Controller.run (s : Controller) (t : List BusWrite) : Controller :=
  t.foldl Controller.step s

/-- The function `OLED::DrawInt(int, uint8_t, uint8_t, const char*)` for any behaviour of
the C library: `written option num` is the sequence of bytes found from `buf` on once
`sprintf(buf, option, num)` has returned, for whatever conversion the format holds and
whether or not the output fitted the 10 bytes.  The body then calls `DrawText(buf, row, x)`,
the explicit-column overload with `reserve = false`. -/
def OLED.DrawIntWith (o : OLED) (written : List Nat → Int → List Nat) (num : Int)
    (row x : Nat) (option : List Nat) : OLED :=
  o.DrawText (written option num) row x false

/-- The function `OLED::DrawInt(int, uint8_t, Align, const char*)` for any behaviour of the
C library; as `OLED.DrawIntWith`, with the call `DrawText(buf, row, align)`. -/
def OLED.DrawIntAlignWith (o : OLED) (written : List Nat → Int → List Nat) (num : Int)
    (row : Nat) (align : Align) (option : List Nat) : OLED :=
  o.DrawTextAlign (written option num) row align false

/-- The bytes the `sprintf` of this file leaves in `buf`: the text and its terminating
zero (nothing where it has no result). -/
def sprintfBuf (option : List Nat) (num : Int) : List Nat :=
  match sprintf option [num] with
  | some s => s ++ [0]
  | none => []

/-! ## Basic lemmas -/

theorem OLED.emit_nil (o : OLED) : o.emit [] = o := by
  simp [OLED.emit]

theorem OLED.emit_emit (o : OLED) (a b : List BusWrite) :
    (o.emit a).emit b = o.emit (a ++ b) := by
  simp [OLED.emit]

@[simp] theorem OLED.emit_address (o : OLED) (a : List BusWrite) :
    (o.emit a).address_ = o.address_ := rfl

@[simp] theorem OLED.emit_font (o : OLED) (a : List BusWrite) :
    (o.emit a).font_ = o.font_ := rfl

@[simp] theorem OLED.emit_log (o : OLED) (a : List BusWrite) :
    (o.emit a).i2c_.log = o.i2c_.log ++ a := rfl

@[simp] theorem OLED.emit_ret (o : OLED) (a : List BusWrite) :
    (o.emit a).i2c_.ret = o.i2c_.ret := rfl

theorem OLED.SendCommand_snd (o : OLED) (cmd : Nat) :
    (o.SendCommand cmd).2 = o.emit [cmdFrame o.address_ cmd] := rfl

theorem OLED.SendData_snd (o : OLED) (data : Nat) :
    (o.SendData data).2 = o.emit [dataFrame o.address_ data] := rfl

theorem and15_lt (x : Nat) : x &&& 0x0F < 16 := by
  have h : x &&& 15 = x % 16 := Nat.and_pow_two_sub_one_eq_mod x 4
  omega

/-- What `SetCursor` does on every input, wrap-around of the page command included. -/
theorem OLED.SetCursor_emit (o : OLED) (x row : Nat) :
    o.SetCursor x row = o.emit [cmdFrame o.address_ ((0xB0 + row) % 256),
      cmdFrame o.address_ (x &&& 0x0F), cmdFrame o.address_ (0x10 + ((x >>> 4) &&& 0x0F))] := by
  have h1 := and15_lt x
  have h2 := and15_lt (x >>> 4)
  have e1 : (0x00 + (x &&& 0x0F)) % 256 = x &&& 0x0F := by omega
  have e2 : (0x10 + ((x >>> 4) &&& 0x0F)) % 256 = 0x10 + ((x >>> 4) &&& 0x0F) := by omega
  simp only [OLED.SetCursor, OLED.SendCommand_snd, OLED.emit_emit, OLED.emit_address, e1, e2]
  rfl

/-- C1: for every column `x` and every page `row` in 0..7, `SetCursor(x, row)` appends
exactly three frames to the bus log, all command frames (control byte 0x00) to the device
address, carrying `0xB0 + row`, `x & 0x0F` and `0x10 + ((x >> 4) & 0x0F)` in this order;
no data frame is emitted and nothing else of the driver state changes. -/
theorem OLED.SetCursor_frames (o : OLED) (x row : Nat) (hrow : row < 8) :
    (o.SetCursor x row).i2c_.log = o.i2c_.log ++
        [⟨o.address_, [0x00, 0xB0 + row]⟩, ⟨o.address_, [0x00, 0x00 + (x &&& 0x0F)]⟩,
         ⟨o.address_, [0x00, 0x10 + ((x >>> 4) &&& 0x0F)]⟩] ∧
      (o.SetCursor x row).address_ = o.address_ ∧
      (o.SetCursor x row).font_ = o.font_ ∧
      (o.SetCursor x row).i2c_.ret = o.i2c_.ret := by
  have e : (0xB0 + row) % 256 = 0xB0 + row := by omega
  rw [OLED.SetCursor_emit, e]
  simp [cmdFrame]

/-- C1 at column 0x5A of page 3 on a fresh bus: the commands are 0xB3, 0x0A, 0x15. -/
theorem OLED.SetCursor_frames_witness :
    (3 < 8) ∧
    ((OLED.construct ⟨fun _ => 0, []⟩ (fun _ _ => 0) 0x3C).SetCursor 0x5A 3).i2c_.log =
      [⟨0x78, [0x00, 0xB3]⟩, ⟨0x78, [0x00, 0x0A]⟩, ⟨0x78, [0x00, 0x15]⟩] :=
  ⟨by decide,
   (OLED.SetCursor_frames (OLED.construct ⟨fun _ => 0, []⟩ (fun _ _ => 0) 0x3C) 0x5A 3
      (by decide)).1⟩

/-! ## Loops -/

theorem forU8_range' {σ : Type} (bound : Nat) (body : Nat → σ → σ) :
    ∀ (k i : Nat) (s : σ), i + k = bound % 256 →
      forU8 bound body i s = (List.range' i k).foldl (fun s i => body i s) s := by
  intro k
  induction k with
  | zero =>
    intro i s h
    rw [forU8]
    simp only [List.range'_zero, List.foldl_nil]
    rw [if_neg (by omega)]
  | succ k ih =>
    intro i s h
    rw [forU8]
    have hlt : i < bound % 256 := by omega
    have hb : bound % 256 < 256 := Nat.mod_lt _ (by decide)
    have hw : (i + 1) % 256 = i + 1 := Nat.mod_eq_of_lt (by omega)
    rw [if_pos hlt, hw, ih (i + 1) (body i s) (by omega)]
    simp [List.range'_succ]

theorem forU8_range {σ : Type} (bound : Nat) (body : Nat → σ → σ) (s : σ) :
    forU8 bound body 0 s = (List.range (bound % 256)).foldl (fun s i => body i s) s := by
  rw [forU8_range' bound body (bound % 256) 0 s (by omega), List.range_eq_range']

theorem OLED.foldl_emit (body : Nat → OLED → OLED)
    (g : Nat → (Int → Nat → Nat) → Nat → List BusWrite)
    (h : ∀ i o, body i o = o.emit (g o.address_ o.font_ i)) :
    ∀ (l : List Nat) (o : OLED),
      l.foldl (fun s i => body i s) o = o.emit (l.flatMap (g o.address_ o.font_)) := by
  intro l
  induction l with
  | nil => intro o; simp [OLED.emit_nil]
  | cons a l ih =>
    intro o
    simp only [List.foldl_cons, List.flatMap_cons]
    rw [h, ih, OLED.emit_emit]
    simp

/-- A loop whose body only appends frames appends the frames of its iterations in order. -/
theorem OLED.forU8_emit (bound : Nat) (body : Nat → OLED → OLED)
    (g : Nat → (Int → Nat → Nat) → Nat → List BusWrite)
    (h : ∀ i o, body i o = o.emit (g o.address_ o.font_ i)) (o : OLED) :
    forU8 bound body 0 o = o.emit ((List.range (bound % 256)).flatMap (g o.address_ o.font_)) := by
  rw [forU8_range, OLED.foldl_emit body g h]

theorem flatMap_const_singleton {α : Type} (a : α) (l : List Nat) :
    l.flatMap (fun _ => [a]) = List.replicate l.length a := by
  induction l with
  | nil => rfl
  | cons x l ih => simp [List.flatMap_cons, ih, List.replicate_succ]

/-- The whole-screen loop shared by `Clear` and `Fill`, for the data byte `b`. -/
theorem OLED.screen_emit (o : OLED) (b : Nat) :
    forU8 8 (fun row o =>
      let o := o.SetCursor 0 row
      forU8 128 (fun _ o => (o.SendData b).2) 0 o) 0 o = o.emit (screenTrace o.address_ b) := by
  have inner : ∀ o : OLED, forU8 128 (fun _ o => (o.SendData b).2) 0 o =
      o.emit (List.replicate 128 (dataFrame o.address_ b)) := by
    intro o
    rw [OLED.forU8_emit 128 _ (fun a _ _ => [dataFrame a b]) (fun _ o => OLED.SendData_snd o b)]
    simp [flatMap_const_singleton]
  rw [OLED.forU8_emit 8 _ (fun a _ p =>
      [cmdFrame a ((0xB0 + p) % 256), cmdFrame a 0x00, cmdFrame a 0x10] ++
        List.replicate 128 (dataFrame a b))]
  · rfl
  · intro p o
    simp only []
    rw [inner, OLED.SetCursor_emit, OLED.emit_emit]
    simp

set_option maxRecDepth 20000 in
theorem screenTrace_length (addr b : Nat) : (screenTrace addr b).length = 1048 := rfl

set_option maxRecDepth 20000 in
theorem screenTrace_data (addr b : Nat) : ((screenTrace addr b).filter isData).length = 1024 :=
  rfl

set_option maxRecDepth 20000 in
theorem screenTrace_cmd (addr b : Nat) : ((screenTrace addr b).filter isCmd).length = 24 := rfl

theorem screenTrace_isData (addr b : Nat) (f : BusWrite) (hf : f ∈ screenTrace addr b)
    (hd : isData f = true) : f = dataFrame addr b := by
  simp only [screenTrace, List.mem_flatMap, List.mem_range, List.mem_append, List.mem_cons,
    List.mem_replicate] at hf
  obtain ⟨p, _, hf⟩ := hf
  rcases hf with (hf | hf | hf | hf) | hf
  · subst hf; simp [isData, cmdFrame] at hd
  · subst hf; simp [isData, cmdFrame] at hd
  · subst hf; simp [isData, cmdFrame] at hd
  · simp at hf
  · exact hf.2

/-- C5: `Clear()` appends to the bus log exactly, for page p = 0, 1, ..., 7 in increasing
order, the three command frames 0xB0+p, 0x00, 0x10 (cursor at column 0 of page p) followed
by 128 data frames carrying 0x00: 1048 frames in total, of which 1024 are data frames, every
one carrying 0x00, and 24 are command frames (8 cursor-set sequences). -/
theorem OLED.Clear_frames (o : OLED) :
    (o.Clear).i2c_.log = o.i2c_.log ++
        (List.range 8).flatMap (fun p =>
          [⟨o.address_, [0x00, 0xB0 + p]⟩, ⟨o.address_, [0x00, 0x00]⟩,
           ⟨o.address_, [0x00, 0x10]⟩] ++ List.replicate 128 ⟨o.address_, [0x40, 0x00]⟩) ∧
      (o.Clear).i2c_.log.length = o.i2c_.log.length + 1048 ∧
      (((o.Clear).i2c_.log.drop o.i2c_.log.length).filter isData).length = 1024 ∧
      (((o.Clear).i2c_.log.drop o.i2c_.log.length).filter isCmd).length = 24 ∧
      (∀ f ∈ (o.Clear).i2c_.log.drop o.i2c_.log.length, isData f = true →
        f = ⟨o.address_, [0x40, 0x00]⟩) := by
  have h : o.Clear = o.emit (screenTrace o.address_ 0x00) := OLED.screen_emit o 0x00
  rw [h]
  simp only [OLED.emit_log, List.drop_left, List.length_append]
  refine ⟨?_, ?_, ?_, ?_, ?_⟩
  · simp only [screenTrace, cmdFrame, dataFrame]
  · rw [screenTrace_length]
  · rw [screenTrace_data]
  · rw [screenTrace_cmd]
  · intro f hf hd
    exact screenTrace_isData o.address_ 0x00 f hf hd

set_option maxRecDepth 20000 in
theorem screenTrace_map (addr : Nat) :
    (screenTrace addr 0x00).map (fun f => if isData f = true then dataFrame addr 0xFF else f) =
      screenTrace addr 0xFF := rfl

/-- C6: the frames `Fill()` appends are those `Clear()` appends with every data frame
replaced by a data frame carrying 0xFF and every command frame kept, position by position;
in particular both traces have the same length. -/
theorem OLED.Fill_frames (o : OLED) :
    (o.Fill).i2c_.log = o.i2c_.log ++
        ((o.Clear).i2c_.log.drop o.i2c_.log.length).map
          (fun f => if isData f = true then ⟨o.address_, [0x40, 0xFF]⟩ else f) ∧
      (o.Fill).i2c_.log.length = (o.Clear).i2c_.log.length ∧
      (o.Clear).i2c_.log.take o.i2c_.log.length = o.i2c_.log := by
  have hc : o.Clear = o.emit (screenTrace o.address_ 0x00) := OLED.screen_emit o 0x00
  have hf : o.Fill = o.emit (screenTrace o.address_ 0xFF) := OLED.screen_emit o 0xFF
  rw [hc, hf]
  simp only [OLED.emit_log, List.drop_left, List.take_left, List.length_append,
    screenTrace_length]
  refine ⟨?_, trivial, trivial⟩
  rw [← screenTrace_map]
  rfl

/-! ## Glyphs and text -/

theorem toU8_complement (b : Nat) (hb : b < 256) : toU8 (-(b : Int) - 1) = 255 - b := by
  unfold toU8
  omega

/-- What `DrawChar` does on every input: five glyph bytes, then the spacer. -/
theorem OLED.DrawChar_emit (o : OLED) (c : Nat) (reserve : Bool) :
    o.DrawChar c reserve = o.emit
      ((List.range 5).map (fun i => dataFrame o.address_
          (if reserve = true then toU8 (-(o.font_ ((c : Int) - 32) i : Int) - 1)
           else o.font_ ((c : Int) - 32) i)) ++
        [dataFrame o.address_ (if reserve = true then 0xFF else 0x00)]) := by
  unfold OLED.DrawChar
  rw [OLED.forU8_emit 5 _ (fun a F i => [dataFrame a
      (if reserve = true then toU8 (-(F ((c : Int) - 32) i : Int) - 1) else F ((c : Int) - 32) i)])]
  · cases reserve <;> simp only [OLED.SendData_snd, OLED.emit_emit, OLED.emit_address] <;> rfl
  · intro i o
    cases reserve <;> simp [OLED.SendData_snd]

/-- C2: for every glyph table (`o.font_`, with byte entries) and every printable character
code `c` in 32..126, `DrawChar(c, false)` appends exactly six data frames and no command
frame: the five bytes of table entry `c - 32` in index order, then the spacer 0x00;
`DrawChar(c, true)` appends the complements `255 - b` of the same five bytes in the same
order, then the spacer 0xFF. -/
theorem OLED.DrawChar_frames (o : OLED) (c : Nat) (hlo : 32 ≤ c) (hhi : c ≤ 126)
    (hF : ∀ i, i < 5 → o.font_ ((c - 32 : Nat) : Int) i < 256) :
    (o.DrawChar c false).i2c_.log = o.i2c_.log ++
        [⟨o.address_, [0x40, o.font_ ((c - 32 : Nat) : Int) 0]⟩,
         ⟨o.address_, [0x40, o.font_ ((c - 32 : Nat) : Int) 1]⟩,
         ⟨o.address_, [0x40, o.font_ ((c - 32 : Nat) : Int) 2]⟩,
         ⟨o.address_, [0x40, o.font_ ((c - 32 : Nat) : Int) 3]⟩,
         ⟨o.address_, [0x40, o.font_ ((c - 32 : Nat) : Int) 4]⟩,
         ⟨o.address_, [0x40, 0x00]⟩] ∧
      (o.DrawChar c true).i2c_.log = o.i2c_.log ++
        [⟨o.address_, [0x40, 255 - o.font_ ((c - 32 : Nat) : Int) 0]⟩,
         ⟨o.address_, [0x40, 255 - o.font_ ((c - 32 : Nat) : Int) 1]⟩,
         ⟨o.address_, [0x40, 255 - o.font_ ((c - 32 : Nat) : Int) 2]⟩,
         ⟨o.address_, [0x40, 255 - o.font_ ((c - 32 : Nat) : Int) 3]⟩,
         ⟨o.address_, [0x40, 255 - o.font_ ((c - 32 : Nat) : Int) 4]⟩,
         ⟨o.address_, [0x40, 0xFF]⟩] := by
  have hidx : ((c - 32 : Nat) : Int) = (c : Int) - 32 := by omega
  rw [hidx] at hF ⊢
  have h0 := toU8_complement _ (hF 0 (by decide))
  have h1 := toU8_complement _ (hF 1 (by decide))
  have h2 := toU8_complement _ (hF 2 (by decide))
  have h3 := toU8_complement _ (hF 3 (by decide))
  have h4 := toU8_complement _ (hF 4 (by decide))
  rw [OLED.DrawChar_emit, OLED.DrawChar_emit]
  constructor
  · rfl
  · rw [← h0, ← h1, ← h2, ← h3, ← h4]
    rfl

/-- C2 at `c = 'A'` (65): the glyph is read at table index 33. -/
theorem OLED.DrawChar_frames_witness :
    (32 ≤ 65 ∧ 65 ≤ 126 ∧ ∀ i, i < 5 → sampleOLED.font_ ((65 - 32 : Nat) : Int) i < 256) ∧
    (sampleOLED.DrawChar 65 false).i2c_.log =
      [⟨0x78, [0x40, sampleOLED.font_ 33 0]⟩, ⟨0x78, [0x40, sampleOLED.font_ 33 1]⟩,
       ⟨0x78, [0x40, sampleOLED.font_ 33 2]⟩, ⟨0x78, [0x40, sampleOLED.font_ 33 3]⟩,
       ⟨0x78, [0x40, sampleOLED.font_ 33 4]⟩, ⟨0x78, [0x40, 0x00]⟩] ∧
    (sampleOLED.DrawChar 65 true).i2c_.log =
      [⟨0x78, [0x40, 0x83]⟩, ⟨0x78, [0x40, 0xED]⟩, ⟨0x78, [0x40, 0xEE]⟩,
       ⟨0x78, [0x40, 0xED]⟩, ⟨0x78, [0x40, 0x83]⟩, ⟨0x78, [0x40, 0xFF]⟩] :=
  have hF : ∀ i, i < 5 → sampleOLED.font_ ((65 - 32 : Nat) : Int) i < 256 := by decide
  ⟨⟨by decide, by decide, hF⟩,
   OLED.DrawChar_frames sampleOLED 65 (by decide) (by decide) hF⟩

theorem OLED.DrawChar_glyph (o : OLED) (c : Nat) (reserve : Bool)
    (hF : ∀ g i, o.font_ g i < 256) :
    o.DrawChar c reserve = o.emit (glyphFrames o.address_ o.font_ reserve c) := by
  rw [OLED.DrawChar_emit]
  unfold glyphFrames
  congr 2
  apply List.map_congr_left
  intro i _
  cases reserve
  · rfl
  · simp [toU8_complement _ (hF ((c : Int) - 32) i)]

theorem cstring_of_ne_zero (text : List Nat) (h : ∀ c ∈ text, c ≠ 0) : cstring text = text := by
  unfold cstring
  rw [List.takeWhile_eq_self_iff]
  intro c hc
  simpa using h c hc

theorem strlen_eq (text : List Nat) : strlen text = (cstring text).length := by
  induction text with
  | nil => rfl
  | cons c text ih =>
    by_cases hc : c = 0
    · simp [strlen, cstring, hc]
    · simp only [strlen, cstring, hc, List.takeWhile_cons]
      simp [ih, cstring, hc]

/-- The text loop appends the character cells of the string, in order. -/
theorem OLED.whileText_emit (reserve : Bool) (text : List Nat) :
    ∀ (o : OLED), (∀ g i, o.font_ g i < 256) →
      OLED.whileText reserve text o =
        o.emit ((cstring text).flatMap (glyphFrames o.address_ o.font_ reserve)) := by
  induction text with
  | nil => intro o _; simp [OLED.whileText, cstring, OLED.emit_nil]
  | cons c text ih =>
    intro o hF
    by_cases hc : c = 0
    · simp [OLED.whileText, cstring, hc, OLED.emit_nil]
    · simp only [OLED.whileText, hc, if_false]
      rw [OLED.DrawChar_glyph o c reserve hF, ih _ (by simpa using hF), OLED.emit_emit]
      simp [cstring, hc]

theorem glyph_run_length (addr : Nat) (font : Int → Nat → Nat) (reserve : Bool)
    (text : List Nat) : (text.flatMap (glyphFrames addr font reserve)).length = 6 * text.length := by
  induction text with
  | nil => rfl
  | cons c text ih =>
    simp only [List.flatMap_cons, List.length_append, ih, List.length_cons]
    simp [glyphFrames]
    omega

theorem glyph_run_data (addr : Nat) (font : Int → Nat → Nat) (reserve : Bool)
    (text : List Nat) : (text.flatMap (glyphFrames addr font reserve)).filter isData =
      text.flatMap (glyphFrames addr font reserve) := by
  rw [List.filter_eq_self]
  intro f hf
  simp only [List.mem_flatMap, glyphFrames, List.mem_append, List.mem_map, List.mem_singleton]
    at hf
  obtain ⟨c, _, hf⟩ := hf
  rcases hf with ⟨i, _, hf⟩ | hf <;> subst hf <;> rfl

theorem glyph_run_cmd (addr : Nat) (font : Int → Nat → Nat) (reserve : Bool)
    (text : List Nat) : (text.flatMap (glyphFrames addr font reserve)).filter isCmd = [] := by
  rw [List.filter_eq_nil_iff]
  intro f hf
  simp only [List.mem_flatMap, glyphFrames, List.mem_append, List.mem_map, List.mem_singleton]
    at hf
  obtain ⟨c, _, hf⟩ := hf
  rcases hf with ⟨i, _, hf⟩ | hf <;> subst hf <;> simp [isCmd, dataFrame]

/-- The explicit-column `DrawText` on every C string. -/
theorem OLED.DrawText_emit (o : OLED) (text : List Nat) (row x : Nat) (reserve : Bool)
    (hF : ∀ g i, o.font_ g i < 256) :
    o.DrawText text row x reserve = o.emit
      ([cmdFrame o.address_ ((0xB0 + row) % 256), cmdFrame o.address_ (x &&& 0x0F),
        cmdFrame o.address_ (0x10 + ((x >>> 4) &&& 0x0F)),
        dataFrame o.address_ (if reserve = true then 0xFF else 0x00)] ++
       (cstring text).flatMap (glyphFrames o.address_ o.font_ reserve)) := by
  unfold OLED.DrawText
  simp only [OLED.SetCursor_emit, OLED.SendData_snd]
  cases reserve <;>
    simp only [Bool.false_eq_true, if_false, if_true] <;>
    rw [OLED.whileText_emit _ _ _ (by simpa using hF)] <;>
    simp [OLED.emit_emit]

theorem sampleOLED_font_lt : ∀ g i, sampleOLED.font_ g i < 256 := by
  intro g i
  simp only [sampleOLED, OLED.construct]
  split
  · rcases i with _ | _ | _ | _ | _ | i <;> simp
  · decide

/-- C3: for every text of n printable characters (codes 32..126), every row, column `x`
and `reserve` flag, on a glyph table of bytes, the explicit-column `DrawText` appends exactly
the three command frames of `SetCursor(x, row)`, then one background data frame (0xFF if
inverted, else 0x00), then the six data frames of each character in text order, with no
command frame between characters: 3 command frames and 6n+1 data frames in all. -/
theorem OLED.DrawText_frames (o : OLED) (text : List Nat) (row x : Nat) (reserve : Bool)
    (hF : ∀ g i, o.font_ g i < 256) (hp : ∀ c ∈ text, 32 ≤ c ∧ c ≤ 126) :
    (o.DrawText text row x reserve).i2c_.log =
        (o.SetCursor x row).i2c_.log ++
          [⟨o.address_, [0x40, if reserve = true then 0xFF else 0x00]⟩] ++
          text.flatMap (glyphFrames o.address_ o.font_ reserve) ∧
      (o.SetCursor x row).i2c_.log = o.i2c_.log ++
          [⟨o.address_, [0x00, (0xB0 + row) % 256]⟩, ⟨o.address_, [0x00, x &&& 0x0F]⟩,
           ⟨o.address_, [0x00, 0x10 + ((x >>> 4) &&& 0x0F)]⟩] ∧
      (((o.DrawText text row x reserve).i2c_.log.drop o.i2c_.log.length).filter
          isCmd).length = 3 ∧
      (((o.DrawText text row x reserve).i2c_.log.drop o.i2c_.log.length).filter
          isData).length = 6 * text.length + 1 := by
  have hz : cstring text = text :=
    cstring_of_ne_zero text (fun c hc => by have := hp c hc; omega)
  rw [OLED.DrawText_emit o text row x reserve hF, OLED.SetCursor_emit, hz]
  simp only [OLED.emit_log, List.drop_left, List.filter_append, List.length_append,
    glyph_run_cmd, glyph_run_data, glyph_run_length]
  refine ⟨?_, rfl, ?_, ?_⟩
  · simp [cmdFrame, dataFrame]
  · simp [isCmd, cmdFrame, dataFrame]
  · simp [isData, cmdFrame, dataFrame]
    omega

/-- C3 for the text "Hi" on page 4 from column 20: 13 data frames. -/
theorem OLED.DrawText_frames_witness :
    (∀ g i, sampleOLED.font_ g i < 256) ∧ (∀ c ∈ cstr "Hi", 32 ≤ c ∧ c ≤ 126) ∧
    (((sampleOLED.DrawText (cstr "Hi") 4 20 false).i2c_.log.drop
        sampleOLED.i2c_.log.length).filter isData).length = 13 :=
  ⟨sampleOLED_font_lt, by decide,
   (OLED.DrawText_frames sampleOLED (cstr "Hi") 4 20 false sampleOLED_font_lt
      (by decide)).2.2.2⟩

theorem subSize_small (n : Nat) (h : n ≤ 21) : subSize 128 (mulSize n 6) = 128 - 6 * n := by
  unfold subSize mulSize sizeMod
  omega

/-- C4: for every text of length n ≤ 21, every row and `reserve` flag, the alignment form
of `DrawText` ends in the same driver state, hence appends the same frames, as the
explicit-column form started at column 0 for Left, (128 - 6n)/2 for Center and 128 - 6n
for Right. -/
theorem OLED.DrawTextAlign_eq_DrawText (o : OLED) (text : List Nat) (row : Nat)
    (reserve : Bool) (hn : strlen text ≤ 21) :
    o.DrawTextAlign text row Align.Left reserve = o.DrawText text row 0 reserve ∧
      o.DrawTextAlign text row Align.Center reserve =
        o.DrawText text row ((128 - 6 * strlen text) / 2) reserve ∧
      o.DrawTextAlign text row Align.Right reserve =
        o.DrawText text row (128 - 6 * strlen text) reserve := by
  have hs := subSize_small (strlen text) hn
  have hc : ((128 - 6 * strlen text) / 2) % 256 = (128 - 6 * strlen text) / 2 := by omega
  have hr : (128 - 6 * strlen text) % 256 = 128 - 6 * strlen text := by omega
  have h1 : Align.Center ≠ Align.Left := by decide
  have h2 : Align.Right ≠ Align.Left := by decide
  have h3 : Align.Right ≠ Align.Center := by decide
  refine ⟨?_, ?_, ?_⟩
  · simp [OLED.DrawTextAlign, OLED.DrawText]
  · simp [OLED.DrawTextAlign, OLED.DrawText, h1, hs, hc]
  · simp [OLED.DrawTextAlign, OLED.DrawText, h2, h3, hs, hr]

/-- C4 for a 5-character string: centred, it starts at column (128 - 30)/2 = 49. -/
theorem OLED.DrawTextAlign_eq_DrawText_witness :
    strlen (cstr "Hello") ≤ 21 ∧
    sampleOLED.DrawTextAlign (cstr "Hello") 2 Align.Center false =
      sampleOLED.DrawText (cstr "Hello") 2 49 false :=
  ⟨by decide,
   (OLED.DrawTextAlign_eq_DrawText sampleOLED (cstr "Hello") 2 false (by decide)).2.1⟩

/-! ## Tiles -/

theorem OLED.SetCursor_cursorFrames (o : OLED) (x row : Nat) :
    o.SetCursor x row = o.emit (cursorFrames o.address_ x row) :=
  OLED.SetCursor_emit o x row

theorem flatMap_length_const {α β : Type} (f : α → List β) (k : Nat) (l : List α)
    (h : ∀ a, (f a).length = k) : (l.flatMap f).length = l.length * k := by
  induction l with
  | nil => simp
  | cons a l ih => simp [List.flatMap_cons, ih, h, Nat.succ_mul, Nat.add_comm]

theorem tileFrames_length (addr : Nat) (tile : Nat → Nat) (x row : Nat) :
    (tileFrames addr tile x row).length = 11 := by
  simp [tileFrames, cursorFrames]

theorem blitTrace_length (addr : Nat) (data : Nat → Nat → Nat) (row x max_row max_column : Nat) :
    (blitTrace addr data row x max_row max_column).length = 11 * (max_row * max_column) := by
  unfold blitTrace
  rw [flatMap_length_const _ (max_column * 11)]
  · simp only [List.length_range]
    ring
  · intro r
    rw [flatMap_length_const _ 11]
    · simp
    · intro c
      exact tileFrames_length _ _ _ _

/-- What `DrawData` does on all 8-bit extents. -/
theorem OLED.DrawData_emit (o : OLED) (data : Nat → Nat → Nat) (row x max_row max_column : Nat)
    (hr : max_row < 256) (hc : max_column < 256) :
    o.DrawData data row x max_row max_column =
      o.emit (blitTrace o.address_ data row x max_row max_column) := by
  have tile : ∀ (t : Nat) (o : OLED),
      forU8 8 (fun i o => (o.SendData (data t i)).2) 0 o =
        o.emit ((List.range 8).map (fun i => dataFrame o.address_ (data t i))) := by
    intro t o
    rw [OLED.forU8_emit 8 _ (fun a _ i => [dataFrame a (data t i)])
      (fun i o => OLED.SendData_snd o (data t i))]
    rfl
  have line : ∀ (r : Nat) (o : OLED),
      forU8 max_column (fun column o =>
        let o := o.SetCursor ((column * 8 + x) % 256) ((r + row) % 256)
        forU8 8 (fun i o => (o.SendData (data (r * max_column + column) i)).2) 0 o) 0 o =
      o.emit ((List.range max_column).flatMap (fun c =>
        tileFrames o.address_ (data (r * max_column + c)) ((c * 8 + x) % 256)
          ((r + row) % 256))) := by
    intro r o
    rw [OLED.forU8_emit max_column _ (fun a _ c =>
      tileFrames a (data (r * max_column + c)) ((c * 8 + x) % 256) ((r + row) % 256)),
      Nat.mod_eq_of_lt hc]
    intro c o
    simp only []
    rw [tile, OLED.SetCursor_cursorFrames, OLED.emit_emit]
    rfl
  unfold OLED.DrawData
  rw [OLED.forU8_emit max_row _ (fun a _ r =>
    (List.range max_column).flatMap (fun c =>
      tileFrames a (data (r * max_column + c)) ((c * 8 + x) % 256) ((r + row) % 256))),
    Nat.mod_eq_of_lt hr]
  · rfl
  · intro r o
    exact line r o

/-- C7: for every tile array `data`, every `row`, `x` and all 8-bit `max_row`, `max_column`,
`DrawData` appends exactly the concatenation, over the tiles in row-major order (r outer,
c inner), of blocks of 11 frames: the cursor-set sequence for column `(c*8 + x) mod 256` and
page `(r + row) mod 256`, then the eight data frames `data[r*max_column + c][0..7]` in index
order; the trace has `11 * max_row * max_column` frames and is empty when `max_row = 0` or
`max_column = 0`. -/
theorem OLED.DrawData_frames (o : OLED) (data : Nat → Nat → Nat)
    (row x max_row max_column : Nat) (hr : max_row < 256) (hc : max_column < 256) :
    (o.DrawData data row x max_row max_column).i2c_.log = o.i2c_.log ++
        (List.range max_row).flatMap (fun r =>
          (List.range max_column).flatMap (fun c =>
            [⟨o.address_, [0x00, (0xB0 + (r + row) % 256) % 256]⟩,
             ⟨o.address_, [0x00, ((c * 8 + x) % 256) &&& 0x0F]⟩,
             ⟨o.address_, [0x00, 0x10 + ((((c * 8 + x) % 256) >>> 4) &&& 0x0F)]⟩] ++
            (List.range 8).map (fun i =>
              (⟨o.address_, [0x40, data (r * max_column + c) i]⟩ : BusWrite)))) ∧
      (o.DrawData data row x max_row max_column).i2c_.log.length =
        o.i2c_.log.length + 11 * (max_row * max_column) ∧
      (max_row = 0 ∨ max_column = 0 →
        (o.DrawData data row x max_row max_column).i2c_.log = o.i2c_.log) := by
  rw [OLED.DrawData_emit o data row x max_row max_column hr hc]
  simp only [OLED.emit_log, List.length_append, blitTrace_length]
  refine ⟨rfl, trivial, ?_⟩
  intro h
  have hl := blitTrace_length o.address_ data row x max_row max_column
  have h0 : max_row * max_column = 0 := by
    rcases h with h | h <;> simp [h]
  rw [h0] at hl
  rw [List.length_eq_zero.mp hl, List.append_nil]

/-- C7 for a 2 by 3 blit at page 1, column 4: 66 frames are appended. -/
theorem OLED.DrawData_frames_witness :
    (2 < 256 ∧ 3 < 256) ∧
    (sampleOLED.DrawData (fun t i => (t * 8 + i) % 256) 1 4 2 3).i2c_.log.length =
      sampleOLED.i2c_.log.length + 11 * (2 * 3) :=
  ⟨by decide,
   (OLED.DrawData_frames sampleOLED (fun t i => (t * 8 + i) % 256) 1 4 2 3
      (by decide) (by decide)).2.1⟩

/-- The body of `DrawQR` passes its `x` as the page and its `row` as the column. -/
theorem OLED.DrawQR_eq (o : OLED) (data : Nat → Nat → Nat) (row x : Nat) :
    o.DrawQR data row x = o.DrawData data x row 5 5 := rfl

set_option maxRecDepth 20000 in
/-- C8 (the code at `row = 0`, `x = 8`): `DrawQR(data, 0, 8)` starts with the cursor-set
for page 8 and column 0 (commands 0xB8, 0x00, 0x10), where `DrawData(data, 0, 8, 5, 5)`
starts with the cursor-set for page 0 and column 8 (commands 0xB0, 0x08, 0x10); the two
traces differ. -/
theorem OLED.DrawQR_transposed :
    (sampleOLED.DrawQR (fun _ _ => 0) 0 8).i2c_.log.take 3 =
        [⟨0x78, [0x00, 0xB8]⟩, ⟨0x78, [0x00, 0x00]⟩, ⟨0x78, [0x00, 0x10]⟩] ∧
      (sampleOLED.DrawData (fun _ _ => 0) 0 8 5 5).i2c_.log.take 3 =
        [⟨0x78, [0x00, 0xB0]⟩, ⟨0x78, [0x00, 0x08]⟩, ⟨0x78, [0x00, 0x10]⟩] ∧
      (sampleOLED.DrawQR (fun _ _ => 0) 0 8).i2c_.log ≠
        (sampleOLED.DrawData (fun _ _ => 0) 0 8 5 5).i2c_.log := by
  rw [OLED.DrawQR_eq, OLED.DrawData_emit _ _ _ _ _ _ (by decide) (by decide),
    OLED.DrawData_emit _ _ _ _ _ _ (by decide) (by decide)]
  refine ⟨by decide, by decide, ?_⟩
  intro h
  have h3 := congrArg (fun l => l.take 1) h
  revert h3
  decide

/-! ## Points -/

theorem one_shiftLeft_lt (k : Nat) (h : k < 8) : (0x01 <<< k) % 256 = 1 <<< k := by
  interval_cases k <;> rfl

/-- C9: for every column `x` and every 8-bit `y`, `DrawPoint(x, y)` appends exactly four frames: the
cursor-set sequence for column `x` and page `y / 8` (commands `0xB0 + y/8`, `x & 0x0F`,
`0x10 + ((x >> 4) & 0x0F)`), then one data frame carrying `1 << (y % 8)`, a byte whose
only set bit is bit `y mod 8`; for `y < 64` the page command lies in 0xB0..0xB7. -/
theorem OLED.DrawPoint_frames (o : OLED) (x y : Nat) (hy : y < 256) :
    (o.DrawPoint x y).i2c_.log = o.i2c_.log ++
        [⟨o.address_, [0x00, 0xB0 + y / 8]⟩, ⟨o.address_, [0x00, x &&& 0x0F]⟩,
         ⟨o.address_, [0x00, 0x10 + ((x >>> 4) &&& 0x0F)]⟩,
         ⟨o.address_, [0x40, 1 <<< (y % 8)]⟩] ∧
      (∀ k, (1 <<< (y % 8)).testBit k = true ↔ k = y % 8) ∧
      1 <<< (y % 8) < 256 ∧
      (y < 64 → 0xB0 ≤ 0xB0 + y / 8 ∧ 0xB0 + y / 8 ≤ 0xB7) := by
  have hk : y % 8 < 8 := Nat.mod_lt _ (by decide)
  have hs := one_shiftLeft_lt (y % 8) hk
  have hp : (0xB0 + (y / 8) % 256) % 256 = 0xB0 + y / 8 := by omega
  refine ⟨?_, ?_, ?_, ?_⟩
  · unfold OLED.DrawPoint
    simp only [OLED.SetCursor_emit, OLED.SendData_snd, OLED.emit_emit, OLED.emit_address,
      OLED.emit_log, hs, hp]
    rfl
  · intro k
    rw [Nat.one_shiftLeft, Nat.testBit_two_pow]
    simp [eq_comm]
  · rw [← hs]
    exact Nat.mod_lt _ (by decide)
  · intro h
    omega

/-- C9 at the point (72, 43): page 5, bit 3. -/
theorem OLED.DrawPoint_frames_witness :
    43 < 256 ∧
    (sampleOLED.DrawPoint 72 43).i2c_.log =
      [⟨0x78, [0x00, 0xB5]⟩, ⟨0x78, [0x00, 0x08]⟩, ⟨0x78, [0x00, 0x14]⟩,
       ⟨0x78, [0x40, 0x08]⟩] :=
  ⟨by decide, (OLED.DrawPoint_frames sampleOLED 72 43 (by decide)).1⟩

/-! ## Numbers -/

theorem utoaAux_acc (fuel : Nat) : ∀ (n : Nat) (acc : List Nat),
    utoaAux fuel n acc = utoaAux fuel n [] ++ acc := by
  induction fuel with
  | zero => intro n acc; rfl
  | succ fuel ih =>
    intro n acc
    by_cases h : n / 10 = 0
    · simp [utoaAux, h]
    · simp only [utoaAux, h, if_false]
      rw [ih (n / 10) ((48 + n % 10) :: acc), ih (n / 10) [48 + n % 10]]
      simp

theorem utoaAux_fuel (f1 : Nat) : ∀ (f2 n : Nat) (acc : List Nat), n < f1 → n < f2 →
    utoaAux f1 n acc = utoaAux f2 n acc := by
  induction f1 with
  | zero => intro f2 n acc h1; omega
  | succ f1 ih =>
    intro f2 n acc h1 h2
    obtain ⟨f2, rfl⟩ : ∃ k, f2 = k + 1 := ⟨f2 - 1, by omega⟩
    by_cases h : n / 10 = 0
    · simp [utoaAux, h]
    · simp only [utoaAux, h, if_false]
      exact ih f2 (n / 10) _ (by omega) (by omega)

theorem utoa_lt_ten (n : Nat) (h : n < 10) : utoa n = [48 + n] := by
  have h0 : n / 10 = 0 := by omega
  have h1 : n % 10 = n := by omega
  simp [utoa, utoaAux, h0, h1]

theorem utoa_ge_ten (n : Nat) (h : 10 ≤ n) : utoa n = utoa (n / 10) ++ [48 + n % 10] := by
  have h0 : ¬ n / 10 = 0 := by omega
  have e : utoaAux (n + 1) n [] = utoaAux n (n / 10) [48 + n % 10] := by
    simp only [utoaAux, h0, if_false]
  unfold utoa
  rw [e, utoaAux_acc n (n / 10) [48 + n % 10],
    utoaAux_fuel n (n / 10 + 1) (n / 10) [] (by omega) (by omega)]

theorem digitChar_toNat (d : Nat) (h : d < 10) : (Nat.digitChar d).toNat = 48 + d := by
  interval_cases d <;> rfl

theorem utoaAux_toDigitsCore (fuel : Nat) : ∀ (n : Nat) (acc : List Char),
    utoaAux fuel n (acc.map Char.toNat) = (Nat.toDigitsCore 10 fuel n acc).map Char.toNat := by
  induction fuel with
  | zero => intro n acc; rfl
  | succ fuel ih =>
    intro n acc
    have hd := digitChar_toNat (n % 10) (Nat.mod_lt _ (by decide))
    by_cases h : n / 10 = 0
    · simp [utoaAux, Nat.toDigitsCore, h, hd]
    · simp only [utoaAux, Nat.toDigitsCore, h, if_false]
      rw [← ih (n / 10) (Nat.digitChar (n % 10) :: acc)]
      simp [hd]

/-- The digits `utoa` produces are the decimal representation `toString` gives. -/
theorem utoa_eq_toString (n : Nat) : utoa n = cstr (toString n) := by
  have h := utoaAux_toDigitsCore (n + 1) n []
  simp only [List.map_nil] at h
  unfold utoa
  rw [h]
  rfl

/-- The conversion `%d` with no flag and no width writes the decimal representation. -/
theorem convD_plain (v : Int) : convD false 0 v = cstr (toString v) := by
  cases v with
  | ofNat n =>
    have h : ¬ (Int.ofNat n < 0) := by simp
    simp only [convD, h, if_false, Int.natAbs_ofNat, utoa_eq_toString]
    simp
    rfl
  | negSucc n =>
    have h : Int.negSucc n < 0 := Int.negSucc_lt_zero n
    have e : cstr (toString (Int.negSucc n)) = 45 :: cstr (toString (n + 1)) := by
      show cstr ("-" ++ toString (n + 1)) = _
      simp [cstr]
    simp only [convD, h, if_true, Int.natAbs_negSucc, utoa_eq_toString, e]
    simp

theorem utoa_length_le (k : Nat) : ∀ n, n < 10 ^ (k + 1) → (utoa n).length ≤ k + 1 := by
  induction k with
  | zero => intro n h; rw [utoa_lt_ten n (by simpa using h)]; simp
  | succ k ih =>
    intro n h
    by_cases h10 : n < 10
    · rw [utoa_lt_ten n h10]; simp
    · rw [utoa_ge_ten n (by omega)]
      have := ih (n / 10) (by
        rw [Nat.div_lt_iff_lt_mul (by decide)]
        calc n < 10 ^ (k + 1 + 1) := h
          _ = 10 ^ (k + 1) * 10 := by ring)
      simp
      omega

theorem sprintf_zero5 (v : Int) : sprintf (cstr "%05d") [v] = some (convD true 5 v) := by
  simp [sprintf, cstr, sprintfAux]

theorem sprintf_plain (v : Int) : sprintf (cstr "%d") [v] = some (convD false 0 v) := by
  simp [sprintf, cstr, sprintfAux]

/-- The conversion `%05d` of a value in 0..99999 writes its five decimal digits. -/
theorem convD_zero5 (n : Nat) (h : n ≤ 99999) :
    convD true 5 (n : Int) =
      [48 + n / 10000 % 10, 48 + n / 1000 % 10, 48 + n / 100 % 10, 48 + n / 10 % 10,
       48 + n % 10] := by
  have hs : ¬ ((n : Int) < 0) := by omega
  simp only [convD, hs, if_false, Int.natAbs_ofNat, if_true, List.length_nil, Nat.zero_add,
    List.nil_append]
  by_cases h1 : n < 10
  · rw [utoa_lt_ten n h1]
    have e : 5 - [48 + n].length = 4 := rfl
    rw [e]
    simp only [List.replicate, List.cons_append, List.nil_append, List.cons.injEq, and_true]
    omega
  by_cases h2 : n < 100
  · rw [utoa_ge_ten n (by omega), utoa_lt_ten (n / 10) (by omega)]
    have e : 5 - ([48 + n / 10] ++ [48 + n % 10]).length = 3 := rfl
    rw [e]
    simp only [List.replicate, List.cons_append, List.nil_append, List.cons.injEq, and_true]
    omega
  by_cases h3 : n < 1000
  · rw [utoa_ge_ten n (by omega), utoa_ge_ten (n / 10) (by omega),
      utoa_lt_ten (n / 10 / 10) (by omega)]
    have e : 5 - ([48 + n / 10 / 10] ++ [48 + n / 10 % 10] ++ [48 + n % 10]).length = 2 := rfl
    rw [e]
    simp only [List.replicate, List.cons_append, List.nil_append, List.cons.injEq, and_true]
    omega
  by_cases h4 : n < 10000
  · rw [utoa_ge_ten n (by omega), utoa_ge_ten (n / 10) (by omega),
      utoa_ge_ten (n / 10 / 10) (by omega), utoa_lt_ten (n / 10 / 10 / 10) (by omega)]
    have e : 5 - ([48 + n / 10 / 10 / 10] ++ [48 + n / 10 / 10 % 10] ++ [48 + n / 10 % 10] ++
        [48 + n % 10]).length = 1 := rfl
    rw [e]
    simp only [List.replicate, List.cons_append, List.nil_append, List.cons.injEq, and_true]
    omega
  · rw [utoa_ge_ten n (by omega), utoa_ge_ten (n / 10) (by omega),
      utoa_ge_ten (n / 10 / 10) (by omega), utoa_ge_ten (n / 10 / 10 / 10) (by omega),
      utoa_lt_ten (n / 10 / 10 / 10 / 10) (by omega)]
    have e : 5 - ([48 + n / 10 / 10 / 10 / 10] ++ [48 + n / 10 / 10 / 10 % 10] ++
        [48 + n / 10 / 10 % 10] ++ [48 + n / 10 % 10] ++ [48 + n % 10]).length = 0 := rfl
    rw [e]
    simp only [List.replicate, List.cons_append, List.nil_append, List.cons.injEq, and_true]
    omega

/-- The conversion `%d` of a value in -99999999..999999999 writes at most 9 characters. -/
theorem convD_plain_length (v : Int) (hlo : -99999999 ≤ v) (hhi : v ≤ 999999999) :
    (convD false 0 v).length ≤ 9 := by
  by_cases hs : v < 0
  · have hl := utoa_length_le 7 v.natAbs (by omega)
    simp only [convD, hs, if_true, Bool.false_eq_true, if_false, List.length_append,
      List.length_replicate, List.length_cons, List.length_nil]
    omega
  · have hl := utoa_length_le 8 v.natAbs (by omega)
    simp only [convD, hs, if_false, Bool.false_eq_true, List.length_append,
      List.length_replicate, List.length_nil]
    omega

/-- Reading a text stops at the terminating zero: what follows it is not drawn. -/
theorem OLED.whileText_terminated (reserve : Bool) (s rest : List Nat) :
    ∀ o : OLED, OLED.whileText reserve (s ++ 0 :: rest) o = OLED.whileText reserve s o := by
  induction s with
  | nil => intro o; simp [OLED.whileText]
  | cons c s ih =>
    intro o
    by_cases hc : c = 0
    · simp [OLED.whileText, hc]
    · simp only [List.cons_append, OLED.whileText, hc, if_false]
      exact ih _

theorem OLED.DrawText_terminated (o : OLED) (s : List Nat) (row x : Nat) (reserve : Bool) :
    o.DrawText (s ++ [0]) row x reserve = o.DrawText s row x reserve := by
  unfold OLED.DrawText
  simp only []
  rw [OLED.whileText_terminated]

/-- C10: for every row and `x`, `DrawInt(810, row, x, "%05d")` ends in the state, hence
appends the frames, of the non-inverted explicit-column `DrawText("00810", row, x)`; for
every `num` with 0 ≤ num ≤ 99999 the format "%05d" gives the frames of `DrawText` on the
five decimal digits of `num`, leading zeros included; and with the default format "%d",
for every `num` with -99999999 ≤ num ≤ 999999999, the frames of `DrawText` on the plain
decimal representation of `num`. -/
theorem OLED.DrawInt_frames (o : OLED) (row x : Nat) :
    o.DrawInt 810 row x (cstr "%05d") = some (o.DrawText (cstr "00810") row x false) ∧
      (∀ num : Int, 0 ≤ num → num ≤ 99999 →
        o.DrawInt num row x (cstr "%05d") =
          some (o.DrawText
            [48 + num.toNat / 10000 % 10, 48 + num.toNat / 1000 % 10,
             48 + num.toNat / 100 % 10, 48 + num.toNat / 10 % 10, 48 + num.toNat % 10]
            row x false)) ∧
      (∀ num : Int, -99999999 ≤ num → num ≤ 999999999 →
        o.DrawInt num row x (cstr "%d") =
          some (o.DrawText (cstr (toString num)) row x false)) := by
  have five : ∀ num : Int, 0 ≤ num → num ≤ 99999 →
      o.DrawInt num row x (cstr "%05d") =
        some (o.DrawText
          [48 + num.toNat / 10000 % 10, 48 + num.toNat / 1000 % 10,
           48 + num.toNat / 100 % 10, 48 + num.toNat / 10 % 10, 48 + num.toNat % 10]
          row x false) := by
    intro num h0 h1
    obtain ⟨n, rfl⟩ := Int.eq_ofNat_of_zero_le h0
    have hn : n ≤ 99999 := by omega
    unfold OLED.DrawInt
    rw [sprintf_zero5, convD_zero5 n hn]
    simp only []
    rw [if_pos (by simp), OLED.DrawText_terminated]
    simp
  refine ⟨five 810 (by decide) (by decide), five, ?_⟩
  intro num hlo hhi
  have hl := convD_plain_length num hlo hhi
  unfold OLED.DrawInt
  rw [sprintf_plain]
  simp only []
  rw [if_pos (by omega), OLED.DrawText_terminated, convD_plain]

/-- C10 at `num = 42` (format "%05d", text "00042") and `num = -7` (format "%d"). -/
theorem OLED.DrawInt_frames_witness :
    ((0 : Int) ≤ 42 ∧ (42 : Int) ≤ 99999 ∧
      sampleOLED.DrawInt 42 4 30 (cstr "%05d") =
        some (sampleOLED.DrawText (cstr "00042") 4 30 false)) ∧
    ((-99999999 : Int) ≤ -7 ∧ (-7 : Int) ≤ 999999999 ∧
      sampleOLED.DrawInt (-7) 4 30 (cstr "%d") =
        some (sampleOLED.DrawText (cstr "-7") 4 30 false)) :=
  ⟨⟨by decide, by decide,
     (OLED.DrawInt_frames sampleOLED 4 30).2.1 42 (by decide) (by decide)⟩,
   ⟨by decide, by decide,
     (OLED.DrawInt_frames sampleOLED 4 30).2.2 (-7) (by decide) (by decide)⟩⟩

/-! ## Transport -/

/-- C11: for every byte `b`, `SendCommand(b)` performs exactly one bus write, of the buffer
`[0x00, b]`, and `SendData(b)` exactly one bus write, of `[0x40, b]`, both to the stored
device address and with no retry: the bus after the call is the bus after that single
write, whose log is one entry longer; each call returns `true` if and only if that write
returned 0, and `false` otherwise. -/
theorem OLED.SendCommand_SendData_transport (o : OLED) (b : Nat) :
    ((o.SendCommand b).2.i2c_ = (o.i2c_.write o.address_ [0x00, b]).2 ∧
      (o.SendCommand b).2.i2c_.log = o.i2c_.log ++ [⟨o.address_, [0x00, b]⟩] ∧
      (o.SendCommand b).2.address_ = o.address_ ∧
      ((o.SendCommand b).1 = true ↔ (o.i2c_.write o.address_ [0x00, b]).1 = 0) ∧
      ((o.SendCommand b).1 = false ↔ (o.i2c_.write o.address_ [0x00, b]).1 ≠ 0)) ∧
    ((o.SendData b).2.i2c_ = (o.i2c_.write o.address_ [0x40, b]).2 ∧
      (o.SendData b).2.i2c_.log = o.i2c_.log ++ [⟨o.address_, [0x40, b]⟩] ∧
      (o.SendData b).2.address_ = o.address_ ∧
      ((o.SendData b).1 = true ↔ (o.i2c_.write o.address_ [0x40, b]).1 = 0) ∧
      ((o.SendData b).1 = false ↔ (o.i2c_.write o.address_ [0x40, b]).1 ≠ 0)) := by
  refine ⟨⟨rfl, rfl, rfl, ?_, ?_⟩, ⟨rfl, rfl, rfl, ?_, ?_⟩⟩ <;>
    simp [OLED.SendCommand, OLED.SendData]

/-! ## Column encoding -/

theorem and15_eq_mod (x : Nat) : x &&& 0x0F = x % 16 :=
  Nat.and_pow_two_sub_one_eq_mod x 4

theorem shiftRight4_eq_div (x : Nat) : x >>> 4 = x / 16 :=
  Nat.shiftRight_eq_div_pow x 4

/-- C18: the column encoding of `SetCursor` is lossless on 0..255: the second command byte
`lo` lies in 0x00..0x0F, the third command byte `hi` lies in 0x10..0x1F, and
`x = lo + 16 * (hi - 0x10)`; two columns for which `SetCursor` emits the same pair of
column commands are equal. -/
theorem OLED.SetCursor_column_lossless (o : OLED) (x row : Nat) (hx : x < 256) :
    (∃ lo hi, (o.SetCursor x row).i2c_.log.drop (o.i2c_.log.length + 1) =
          [⟨o.address_, [0x00, lo]⟩, ⟨o.address_, [0x00, hi]⟩] ∧
        lo ≤ 0x0F ∧ 0x10 ≤ hi ∧ hi ≤ 0x1F ∧ x = lo + 16 * (hi - 0x10)) ∧
      (∀ x2 row2, x2 < 256 →
        (o.SetCursor x row).i2c_.log.drop (o.i2c_.log.length + 1) =
          (o.SetCursor x2 row2).i2c_.log.drop (o.i2c_.log.length + 1) → x = x2) := by
  have hdrop : ∀ x row, (o.SetCursor x row).i2c_.log.drop (o.i2c_.log.length + 1) =
      [⟨o.address_, [0x00, x % 16]⟩, ⟨o.address_, [0x00, 0x10 + x / 16 % 16]⟩] := by
    intro x row
    rw [OLED.SetCursor_emit, OLED.emit_log, and15_eq_mod, and15_eq_mod, shiftRight4_eq_div,
      ← List.drop_drop, List.drop_left]
    rfl
  refine ⟨⟨x % 16, 0x10 + x / 16 % 16, hdrop x row, ?_, ?_, ?_, ?_⟩, ?_⟩
  · omega
  · omega
  · omega
  · omega
  · intro x2 row2 hx2 h
    rw [hdrop, hdrop] at h
    simp only [List.cons.injEq, BusWrite.mk.injEq, true_and, and_true] at h
    omega

/-- C18 at column 0x5A: the column commands 0x0A, 0x15 decode to 0x5A. -/
theorem OLED.SetCursor_column_lossless_witness :
    0x5A < 256 ∧
    (∃ lo hi, (sampleOLED.SetCursor 0x5A 3).i2c_.log.drop (sampleOLED.i2c_.log.length + 1) =
        [⟨sampleOLED.address_, [0x00, lo]⟩, ⟨sampleOLED.address_, [0x00, hi]⟩] ∧
      lo ≤ 0x0F ∧ 0x10 ≤ hi ∧ hi ≤ 0x1F ∧ 0x5A = lo + 16 * (hi - 0x10)) :=
  ⟨by decide, (OLED.SetCursor_column_lossless sampleOLED 0x5A 3 (by decide)).1⟩

/-! ## The format buffer -/

theorem utoa_length_ge (k : Nat) : ∀ n, 10 ^ k ≤ n → k + 1 ≤ (utoa n).length := by
  induction k with
  | zero =>
    intro n _
    by_cases h10 : n < 10
    · rw [utoa_lt_ten n h10]; simp
    · rw [utoa_ge_ten n (by omega)]; simp
  | succ k ih =>
    intro n h
    have hk : 10 ^ (k + 1) = 10 ^ k * 10 := by ring
    have hpos : 0 < 10 ^ k := Nat.pow_pos (by decide)
    have h10 : 10 ≤ n := by omega
    have hdiv : 10 ^ k ≤ n / 10 := by
      rw [Nat.le_div_iff_mul_le (by decide)]
      omega
    rw [utoa_ge_ten n h10]
    have := ih (n / 10) hdiv
    simp
    omega

theorem convD_plain_length_eq (v : Int) :
    (convD false 0 v).length = (if v < 0 then 1 else 0) + (utoa v.natAbs).length := by
  by_cases hs : v < 0 <;> simp [convD, hs, Nat.add_comm]

/-- The number of characters `%d` writes for a 32-bit `int`: at most 9 exactly on
-99999999..999999999, and 10 or 11 elsewhere. -/
theorem convD_plain_fits (v : Int) (hlo : -2147483648 ≤ v) (hhi : v ≤ 2147483647) :
    ((convD false 0 v).length + 1 ≤ 10 ↔ (-99999999 ≤ v ∧ v ≤ 999999999)) ∧
      (¬ (-99999999 ≤ v ∧ v ≤ 999999999) →
        (convD false 0 v).length + 1 = 11 ∨ (convD false 0 v).length + 1 = 12) := by
  rw [convD_plain_length_eq]
  by_cases hs : v < 0
  · simp only [hs, if_true]
    by_cases hr : -99999999 ≤ v
    · have hl := utoa_length_le 7 v.natAbs (by omega)
      refine ⟨⟨fun _ => ⟨hr, by omega⟩, fun _ => by omega⟩, fun h => ?_⟩
      exact absurd ⟨hr, by omega⟩ h
    · have hg := utoa_length_ge 8 v.natAbs (by omega)
      have hl := utoa_length_le 9 v.natAbs (by omega)
      refine ⟨⟨fun h => by omega, fun h => absurd h.1 hr⟩, fun _ => by omega⟩
  · simp only [hs, if_false]
    by_cases hr : v ≤ 999999999
    · have hl := utoa_length_le 8 v.natAbs (by omega)
      refine ⟨⟨fun _ => ⟨by omega, hr⟩, fun _ => by omega⟩, fun h => ?_⟩
      exact absurd ⟨by omega, hr⟩ h
    · have hg := utoa_length_ge 9 v.natAbs (by omega)
      have hl := utoa_length_le 9 v.natAbs (by omega)
      refine ⟨⟨fun h => by omega, fun h => absurd h.2 hr⟩, fun _ => by omega⟩

/-- C17: with the default format "%d", for every 32-bit `num`, the text `sprintf` writes
(the decimal representation of `num`) fits the 10-byte buffer of `DrawInt` with its
terminating zero, i.e. has at most 9 characters, if and only if
-99999999 ≤ num ≤ 999999999; for every other 32-bit `num` the output needs 11 or 12 bytes,
and both `DrawInt` functions overrun the buffer (no defined result) exactly then. -/
theorem OLED.DrawInt_buffer (num : Int) (hlo : -2147483648 ≤ num) (hhi : num ≤ 2147483647) :
    sprintf (cstr "%d") [num] = some (cstr (toString num)) ∧
      ((cstr (toString num)).length + 1 ≤ 10 ↔ (-99999999 ≤ num ∧ num ≤ 999999999)) ∧
      (¬ (-99999999 ≤ num ∧ num ≤ 999999999) →
        (cstr (toString num)).length + 1 = 11 ∨ (cstr (toString num)).length + 1 = 12) ∧
      (∀ (o : OLED) (row x : Nat),
        (o.DrawInt num row x (cstr "%d")).isSome = true ↔
          (-99999999 ≤ num ∧ num ≤ 999999999)) ∧
      (∀ (o : OLED) (row : Nat) (align : Align),
        (o.DrawIntAlign num row align (cstr "%d")).isSome = true ↔
          (-99999999 ≤ num ∧ num ≤ 999999999)) := by
  have hf := convD_plain_fits num hlo hhi
  rw [convD_plain] at hf
  refine ⟨by rw [sprintf_plain, convD_plain], hf.1, hf.2, ?_, ?_⟩
  · intro o row x
    unfold OLED.DrawInt
    rw [sprintf_plain, convD_plain]
    simp only []
    by_cases h : (cstr (toString num)).length + 1 ≤ 10
    · simp [h, hf.1.mp h]
    · have h2 : ¬ (-99999999 ≤ num ∧ num ≤ 999999999) := fun hr => h (hf.1.mpr hr)
      simp only [h, if_false, Option.isSome_none, Bool.false_eq_true, false_iff]
      exact h2
  · intro o row align
    unfold OLED.DrawIntAlign
    rw [sprintf_plain, convD_plain]
    simp only []
    by_cases h : (cstr (toString num)).length + 1 ≤ 10
    · simp [h, hf.1.mp h]
    · have h2 : ¬ (-99999999 ≤ num ∧ num ≤ 999999999) := fun hr => h (hf.1.mpr hr)
      simp only [h, if_false, Option.isSome_none, Bool.false_eq_true, false_iff]
      exact h2

/-- C17 at `num = 1000000000`: ten characters, eleven bytes, no defined result. -/
theorem OLED.DrawInt_buffer_witness :
    ((-2147483648 : Int) ≤ 1000000000 ∧ (1000000000 : Int) ≤ 2147483647) ∧
    sprintf (cstr "%d") [1000000000] = some (cstr (toString (1000000000 : Int))) ∧
    ((cstr (toString (1000000000 : Int))).length + 1 ≤ 10 ↔
      ((-99999999 : Int) ≤ 1000000000 ∧ (1000000000 : Int) ≤ 999999999)) :=
  ⟨by decide,
   (OLED.DrawInt_buffer 1000000000 (by decide) (by decide)).1,
   (OLED.DrawInt_buffer 1000000000 (by decide) (by decide)).2.1⟩

/-! ## Every operation as a trace -/

theorem OLED.DrawChar_cell (o : OLED) (c : Nat) (reserve : Bool) :
    o.DrawChar c reserve = o.emit (cellFrames o.address_ o.font_ reserve c) :=
  OLED.DrawChar_emit o c reserve

theorem OLED.whileText_cells (reserve : Bool) (text : List Nat) :
    ∀ (o : OLED), OLED.whileText reserve text o =
      o.emit ((cstring text).flatMap (cellFrames o.address_ o.font_ reserve)) := by
  induction text with
  | nil => intro o; simp [OLED.whileText, cstring, OLED.emit_nil]
  | cons c text ih =>
    intro o
    by_cases hc : c = 0
    · simp [OLED.whileText, cstring, hc, OLED.emit_nil]
    · simp only [OLED.whileText, hc, if_false]
      rw [OLED.DrawChar_cell o c reserve, ih, OLED.emit_emit]
      simp [cstring, hc]

theorem OLED.background_emit (o : OLED) (reserve : Bool) :
    (if reserve = true then (o.SendData 0xFF).2 else (o.SendData 0x00).2) =
      o.emit [dataFrame o.address_ (if reserve = true then 0xFF else 0x00)] := by
  cases reserve <;> simp [OLED.SendData_snd]

theorem OLED.DrawText_trace (o : OLED) (text : List Nat) (row x : Nat) (reserve : Bool) :
    o.DrawText text row x reserve =
      o.emit (cursorFrames o.address_ x row ++ textFrames o.address_ o.font_ reserve text) := by
  unfold OLED.DrawText
  simp only []
  rw [OLED.background_emit, OLED.whileText_cells, OLED.SetCursor_cursorFrames]
  simp [OLED.emit_emit, textFrames]

theorem OLED.DrawTextAlign_trace (o : OLED) (text : List Nat) (row : Nat) (align : Align)
    (reserve : Bool) :
    o.DrawTextAlign text row align reserve =
      o.emit (cursorFrames o.address_ (alignColumn align text) row ++
        textFrames o.address_ o.font_ reserve text) := by
  have hc : (if align = Align.Left then o.SetCursor 0 row
      else if align = Align.Center then
        o.SetCursor ((subSize 128 (mulSize (strlen text) 6) / 2) % 256) row
      else if align = Align.Right then
        o.SetCursor ((subSize 128 (mulSize (strlen text) 6)) % 256) row
      else o.SetCursor 0 row) = o.SetCursor (alignColumn align text) row := by
    unfold alignColumn
    split
    · rfl
    · split
      · rfl
      · split <;> rfl
  unfold OLED.DrawTextAlign
  simp only []
  rw [hc, OLED.background_emit, OLED.whileText_cells, OLED.SetCursor_cursorFrames]
  simp [OLED.emit_emit, textFrames]

theorem OLED.DrawPoint_trace (o : OLED) (x y : Nat) :
    o.DrawPoint x y = o.emit (cursorFrames o.address_ x ((y / 8) % 256) ++
      [dataFrame o.address_ ((0x01 <<< (y % 8)) % 256)]) := by
  unfold OLED.DrawPoint
  simp only []
  rw [OLED.SetCursor_cursorFrames, OLED.SendData_snd, OLED.emit_emit]
  rfl

theorem OLED.DrawData_trace (o : OLED) (data : Nat → Nat → Nat)
    (row x max_row max_column : Nat) :
    o.DrawData data row x max_row max_column =
      o.emit (blitTraceU8 o.address_ data row x max_row max_column) := by
  have tile : ∀ (t : Nat) (o : OLED),
      forU8 8 (fun i o => (o.SendData (data t i)).2) 0 o =
        o.emit ((List.range 8).map (fun i => dataFrame o.address_ (data t i))) := by
    intro t o
    rw [OLED.forU8_emit 8 _ (fun a _ i => [dataFrame a (data t i)])
      (fun i o => OLED.SendData_snd o (data t i))]
    rfl
  unfold OLED.DrawData
  rw [OLED.forU8_emit max_row _ (fun a _ r =>
    (List.range (max_column % 256)).flatMap (fun c =>
      tileFrames a (data (r * max_column + c)) ((c * 8 + x) % 256) ((r + row) % 256)))]
  · rfl
  · intro r o
    rw [OLED.forU8_emit max_column _ (fun a _ c =>
      tileFrames a (data (r * max_column + c)) ((c * 8 + x) % 256) ((r + row) % 256))]
    intro c o
    simp only []
    rw [tile, OLED.SetCursor_cursorFrames, OLED.emit_emit]
    rfl

theorem OLED.withRet_emit_log (o : OLED) (ret : Nat → Int) (t : List BusWrite) :
    ((o.withRet ret).emit t).i2c_.log = o.i2c_.log ++ t := rfl

/-- C12: for every assignment of return values to the individual bus writes (every oracle
`ret`), the bus log after `Clear`, `Fill`, `DrawPoint`, either form of `DrawText`,
`DrawData` or `DrawQR` is the log obtained when every write returns 0: a failed write
causes no early exit, no retry and no change to any later frame. -/
theorem OLED.frames_ignore_failures (o : OLED) (ret : Nat → Int) :
    ((o.withRet ret).Clear).i2c_.log = ((o.withRet (fun _ => 0)).Clear).i2c_.log ∧
      ((o.withRet ret).Fill).i2c_.log = ((o.withRet (fun _ => 0)).Fill).i2c_.log ∧
      (∀ x y, ((o.withRet ret).DrawPoint x y).i2c_.log =
        ((o.withRet (fun _ => 0)).DrawPoint x y).i2c_.log) ∧
      (∀ text row x reserve, ((o.withRet ret).DrawText text row x reserve).i2c_.log =
        ((o.withRet (fun _ => 0)).DrawText text row x reserve).i2c_.log) ∧
      (∀ text row align reserve,
        ((o.withRet ret).DrawTextAlign text row align reserve).i2c_.log =
          ((o.withRet (fun _ => 0)).DrawTextAlign text row align reserve).i2c_.log) ∧
      (∀ data row x max_row max_column,
        ((o.withRet ret).DrawData data row x max_row max_column).i2c_.log =
          ((o.withRet (fun _ => 0)).DrawData data row x max_row max_column).i2c_.log) ∧
      (∀ data row x, ((o.withRet ret).DrawQR data row x).i2c_.log =
        ((o.withRet (fun _ => 0)).DrawQR data row x).i2c_.log) := by
  have hc : ∀ o : OLED, o.Clear = o.emit (screenTrace o.address_ 0x00) :=
    fun o => OLED.screen_emit o 0x00
  have hf : ∀ o : OLED, o.Fill = o.emit (screenTrace o.address_ 0xFF) :=
    fun o => OLED.screen_emit o 0xFF
  refine ⟨?_, ?_, ?_, ?_, ?_, ?_, ?_⟩
  · rw [hc, hc]; rfl
  · rw [hf, hf]; rfl
  · intro x y
    rw [OLED.DrawPoint_trace, OLED.DrawPoint_trace]; rfl
  · intro text row x reserve
    rw [OLED.DrawText_trace, OLED.DrawText_trace]; rfl
  · intro text row align reserve
    rw [OLED.DrawTextAlign_trace, OLED.DrawTextAlign_trace]; rfl
  · intro data row x max_row max_column
    rw [OLED.DrawData_trace, OLED.DrawData_trace]; rfl
  · intro data row x
    rw [OLED.DrawQR_eq, OLED.DrawQR_eq, OLED.DrawData_trace, OLED.DrawData_trace]; rfl

/-! ## Extent of an aligned text run -/

theorem textFrames_length (addr : Nat) (font : Int → Nat → Nat) (reserve : Bool)
    (text : List Nat) : (textFrames addr font reserve text).length = 6 * strlen text + 1 := by
  unfold textFrames
  rw [List.length_cons, flatMap_length_const _ 6, strlen_eq]
  · omega
  · intro c
    simp [cellFrames]

theorem textFrames_data (addr : Nat) (font : Int → Nat → Nat) (reserve : Bool)
    (text : List Nat) : ∀ f ∈ textFrames addr font reserve text, isData f = true := by
  intro f hf
  simp only [textFrames, List.mem_cons, List.mem_flatMap, cellFrames, List.mem_append,
    List.mem_map, List.not_mem_nil, or_false] at hf
  rcases hf with hf | ⟨c, _, ⟨i, _, hf⟩ | hf⟩ <;> subst hf <;> rfl

theorem alignColumn_small (text : List Nat) (hn : strlen text ≤ 21) :
    alignColumn Align.Left text = 0 ∧
      alignColumn Align.Center text = 64 - 3 * strlen text ∧
      alignColumn Align.Right text = 128 - 6 * strlen text := by
  have hs := subSize_small (strlen text) hn
  have h1 : Align.Center ≠ Align.Left := by decide
  have h2 : Align.Right ≠ Align.Left := by decide
  have h3 : Align.Right ≠ Align.Center := by decide
  refine ⟨?_, ?_, ?_⟩
  · simp [alignColumn]
  · simp only [alignColumn, h1, if_false, if_true, hs]
    omega
  · simp only [alignColumn, h2, h3, if_false, if_true, hs]
    omega

/-- C16: for every text of length n ≤ 21, the alignment form of `DrawText` appends the
cursor-set for its computed column (0 for Left, 64 - 3n for Center, 128 - 6n for Right)
and then a run of 6n+1 data frames; counting one column per data byte from the cursor
column, the last byte of the run is at column 6n for Left and 64 + 3n for Center, both at
most 127, and at column 128 for Right, one past the last display column 127; for n = 0
the Right cursor itself is column 128, column commands 0x00 and 0x18. -/
theorem OLED.DrawTextAlign_extent (o : OLED) (text : List Nat) (row : Nat) (reserve : Bool)
    (hn : strlen text ≤ 21) :
    (∀ align, (o.DrawTextAlign text row align reserve).i2c_.log =
        o.i2c_.log ++ (cursorFrames o.address_ (alignColumn align text) row ++
          textFrames o.address_ o.font_ reserve text)) ∧
      (textFrames o.address_ o.font_ reserve text).length = 6 * strlen text + 1 ∧
      (∀ f ∈ textFrames o.address_ o.font_ reserve text, isData f = true) ∧
      (alignColumn Align.Left text = 0 ∧
        alignColumn Align.Left text +
          ((textFrames o.address_ o.font_ reserve text).length - 1) = 6 * strlen text ∧
        6 * strlen text ≤ 127) ∧
      (alignColumn Align.Center text = (128 - 6 * strlen text) / 2 ∧
        alignColumn Align.Center text +
          ((textFrames o.address_ o.font_ reserve text).length - 1) = 64 + 3 * strlen text ∧
        64 + 3 * strlen text ≤ 127) ∧
      (alignColumn Align.Right text = 128 - 6 * strlen text ∧
        alignColumn Align.Right text +
          ((textFrames o.address_ o.font_ reserve text).length - 1) = 128) ∧
      (strlen text = 0 →
        cursorFrames o.address_ (alignColumn Align.Right text) row =
          [⟨o.address_, [0x00, (0xB0 + row) % 256]⟩, ⟨o.address_, [0x00, 0x00]⟩,
           ⟨o.address_, [0x00, 0x18]⟩]) := by
  obtain ⟨hl, hc, hr⟩ := alignColumn_small text hn
  have hlen := textFrames_length o.address_ o.font_ reserve text
  refine ⟨?_, hlen, textFrames_data _ _ _ _, ⟨hl, ?_, ?_⟩, ⟨?_, ?_, ?_⟩, ⟨hr, ?_⟩, ?_⟩
  · intro align
    rw [OLED.DrawTextAlign_trace]
    rfl
  · rw [hl, hlen]; omega
  · omega
  · rw [hc]; omega
  · rw [hc, hlen]; omega
  · omega
  · rw [hr, hlen]; omega
  · intro h0
    rw [hr, h0]
    rfl

/-- C16 for the text "Hello" (n = 5): the right-aligned run starts at column 98 and its
last byte is at column 128. -/
theorem OLED.DrawTextAlign_extent_witness :
    strlen (cstr "Hello") ≤ 21 ∧
    alignColumn Align.Right (cstr "Hello") = 128 - 6 * strlen (cstr "Hello") ∧
    alignColumn Align.Right (cstr "Hello") +
      ((textFrames sampleOLED.address_ sampleOLED.font_ false (cstr "Hello")).length - 1) =
        128 :=
  ⟨by decide,
   (OLED.DrawTextAlign_extent sampleOLED (cstr "Hello") 2 false (by decide)).2.2.2.2.2.1⟩

/-! ## Cursor-set before every run of data -/

theorem cursorBeforeData_nil (addr : Nat) : CursorBeforeData addr [] := by
  intro pre d post h
  simp at h

theorem noLeadingData_nil : NoLeadingData [] := by
  intro d h
  simp at h

theorem noLeadingData_append {t1 t2 : List BusWrite} (h1 : NoLeadingData t1)
    (h2 : NoLeadingData t2) : NoLeadingData (t1 ++ t2) := by
  intro d h
  cases t1 with
  | nil => exact h2 d (by simpa using h)
  | cons a t1 => exact h1 d (by simpa using h)

/-- One block, a cursor-set followed by data frames only, has the property. -/
theorem cursorBeforeData_block (addr x row : Nat) (ds : List BusWrite)
    (hds : ∀ f ∈ ds, isData f = true) :
    CursorBeforeData addr (cursorFrames addr x row ++ ds) := by
  intro pre d post h hd hlast
  rcases pre with _ | ⟨p1, _ | ⟨p2, _ | ⟨p3, pre3⟩⟩⟩
  · simp only [cursorFrames, List.cons_append, List.nil_append, List.cons.injEq] at h
    rw [← h.1] at hd
    simp [isData, cmdFrame] at hd
  · simp only [cursorFrames, List.cons_append, List.nil_append, List.cons.injEq] at h
    rw [← h.2.1] at hd
    simp [isData, cmdFrame] at hd
  · simp only [cursorFrames, List.cons_append, List.nil_append, List.cons.injEq] at h
    rw [← h.2.2.1] at hd
    simp [isData, cmdFrame] at hd
  · simp only [cursorFrames, List.cons_append, List.nil_append, List.cons.injEq] at h
    obtain ⟨h1, h2, h3, h4⟩ := h
    rcases List.eq_nil_or_concat pre3 with hnil | ⟨init, e, hcat⟩
    · subst hnil
      exact ⟨[], x, row, by simp [cursorFrames, h1, h2, h3]⟩
    · exfalso
      have he : e ∈ ds := by
        rw [h4, hcat]
        simp
      have hsplit : p1 :: p2 :: p3 :: pre3 = (p1 :: p2 :: p3 :: init) ++ [e] := by
        rw [hcat]; simp
      have hne := hlast e (by rw [hsplit, List.getLast?_concat])
      rw [hds e he] at hne
      exact Bool.noConfusion hne

/-- Traces with the property can be put one after the other when the second one does not
begin with a data frame. -/
theorem cursorBeforeData_append {addr : Nat} {t1 t2 : List BusWrite}
    (h1 : CursorBeforeData addr t1) (h2 : CursorBeforeData addr t2) (hs : NoLeadingData t2) :
    CursorBeforeData addr (t1 ++ t2) := by
  intro pre d post h hd hlast
  rcases List.append_eq_append_iff.mp h with ⟨a, hpre, ht2⟩ | ⟨c, ht1, hc⟩
  · cases a with
    | nil =>
      exfalso
      have := hs d (by rw [ht2]; rfl)
      rw [hd] at this
      exact Bool.noConfusion this
    | cons a0 a =>
      obtain ⟨pre', x, row, hp⟩ := h2 (a0 :: a) d post ht2 hd (by
        intro e he
        apply hlast e
        rw [hpre, List.getLast?_append_of_ne_nil _ (List.cons_ne_nil a0 a)]
        exact he)
      exact ⟨t1 ++ pre', x, row, by rw [hpre, hp, List.append_assoc]⟩
  · cases c with
    | nil =>
      exfalso
      have ht : t2 = d :: post := by simpa using hc.symm
      have := hs d (by rw [ht]; rfl)
      rw [hd] at this
      exact Bool.noConfusion this
    | cons c0 c =>
      simp only [List.cons_append, List.cons.injEq] at hc
      exact h1 pre d c (by rw [ht1, hc.1]) hd hlast

theorem cursorBeforeData_flatMap {α : Type} (addr : Nat) (f : α → List BusWrite)
    (l : List α) (h : ∀ a ∈ l, CursorBeforeData addr (f a) ∧ NoLeadingData (f a)) :
    CursorBeforeData addr (l.flatMap f) ∧ NoLeadingData (l.flatMap f) := by
  induction l with
  | nil => exact ⟨cursorBeforeData_nil addr, noLeadingData_nil⟩
  | cons a l ih =>
    have ha := h a (List.mem_cons_self a l)
    have hl := ih (fun b hb => h b (List.mem_cons_of_mem a hb))
    rw [List.flatMap_cons]
    exact ⟨cursorBeforeData_append ha.1 hl.1 hl.2, noLeadingData_append ha.2 hl.2⟩

theorem noLeadingData_block (addr x row : Nat) (ds : List BusWrite) :
    NoLeadingData (cursorFrames addr x row ++ ds) := by
  intro d h
  simp only [cursorFrames, List.cons_append, List.head?_cons, Option.some.injEq] at h
  rw [← h]
  rfl

theorem screenTrace_cursorBeforeData (addr b : Nat) :
    CursorBeforeData addr (screenTrace addr b) := by
  unfold screenTrace
  refine (cursorBeforeData_flatMap addr _ _ ?_).1
  intro p hp
  have hp8 : p < 8 := List.mem_range.mp hp
  have e : [cmdFrame addr (0xB0 + p), cmdFrame addr 0x00, cmdFrame addr 0x10] =
      cursorFrames addr 0 p := by
    have hm : (0xB0 + p) % 256 = 0xB0 + p := by omega
    simp only [cursorFrames, hm]
    rfl
  rw [e]
  exact ⟨cursorBeforeData_block addr 0 p _ (fun f hf => by
    rw [List.eq_of_mem_replicate hf]; rfl), noLeadingData_block addr 0 p _⟩

theorem tileFrames_cursorBeforeData (addr : Nat) (tile : Nat → Nat) (x row : Nat) :
    CursorBeforeData addr (tileFrames addr tile x row) ∧
      NoLeadingData (tileFrames addr tile x row) := by
  unfold tileFrames
  refine ⟨cursorBeforeData_block addr x row _ ?_, noLeadingData_block addr x row _⟩
  intro f hf
  simp only [List.mem_map] at hf
  obtain ⟨i, _, hf⟩ := hf
  subst hf
  rfl

theorem blitTraceU8_cursorBeforeData (addr : Nat) (data : Nat → Nat → Nat)
    (row x max_row max_column : Nat) :
    CursorBeforeData addr (blitTraceU8 addr data row x max_row max_column) := by
  unfold blitTraceU8
  refine (cursorBeforeData_flatMap addr _ _ ?_).1
  intro r _
  refine cursorBeforeData_flatMap addr _ _ ?_
  intro c _
  exact tileFrames_cursorBeforeData addr _ _ _

theorem text_cursorBeforeData (addr : Nat) (font : Int → Nat → Nat) (reserve : Bool)
    (text : List Nat) (x row : Nat) :
    CursorBeforeData addr (cursorFrames addr x row ++ textFrames addr font reserve text) :=
  cursorBeforeData_block addr x row _ (textFrames_data addr font reserve text)

theorem OLED.DrawInt_eq_with (o : OLED) (num : Int) (row x : Nat) (option : List Nat)
    (o2 : OLED) (h : o.DrawInt num row x option = some o2) :
    o2 = o.DrawIntWith sprintfBuf num row x option := by
  unfold OLED.DrawInt at h
  unfold OLED.DrawIntWith sprintfBuf
  split at h
  · exact Option.noConfusion h
  · rename_i s hs
    split at h
    · rw [hs]
      exact (Option.some.inj h).symm
    · exact Option.noConfusion h

theorem OLED.DrawIntAlign_eq_with (o : OLED) (num : Int) (row : Nat) (align : Align)
    (option : List Nat) (o2 : OLED) (h : o.DrawIntAlign num row align option = some o2) :
    o2 = o.DrawIntAlignWith sprintfBuf num row align option := by
  unfold OLED.DrawIntAlign at h
  unfold OLED.DrawIntAlignWith sprintfBuf
  split at h
  · exact Option.noConfusion h
  · rename_i s hs
    split at h
    · rw [hs]
      exact (Option.some.inj h).symm
    · exact Option.noConfusion h

/-- C14: in the frames appended by every public drawing operation (`Clear`, `Fill`,
`DrawPoint`, both `DrawText` forms, both `DrawInt` forms, `DrawData`, `DrawQR`), for all
arguments, every maximal run of consecutive data frames is immediately preceded by the
three commands of a cursor-set sequence appended by the same operation; in particular none
of them appends a data frame first.  For the two `DrawInt` forms this holds for every
format string and every number, whatever bytes the C library's `sprintf` leaves in `buf`
(`written`); the results `DrawInt` and `DrawIntAlign` have with the `sprintf` of this file
are instances of it. -/
theorem OLED.cursor_before_data (o : OLED) :
    CursorBeforeData o.address_ ((o.Clear).i2c_.log.drop o.i2c_.log.length) ∧
      CursorBeforeData o.address_ ((o.Fill).i2c_.log.drop o.i2c_.log.length) ∧
      (∀ x y, CursorBeforeData o.address_
        ((o.DrawPoint x y).i2c_.log.drop o.i2c_.log.length)) ∧
      (∀ text row x reserve, CursorBeforeData o.address_
        ((o.DrawText text row x reserve).i2c_.log.drop o.i2c_.log.length)) ∧
      (∀ text row align reserve, CursorBeforeData o.address_
        ((o.DrawTextAlign text row align reserve).i2c_.log.drop o.i2c_.log.length)) ∧
      (∀ (written : List Nat → Int → List Nat) num row x option,
        CursorBeforeData o.address_
          ((o.DrawIntWith written num row x option).i2c_.log.drop o.i2c_.log.length)) ∧
      (∀ (written : List Nat → Int → List Nat) num row align option,
        CursorBeforeData o.address_
          ((o.DrawIntAlignWith written num row align option).i2c_.log.drop
            o.i2c_.log.length)) ∧
      (∀ num row x option o2, o.DrawInt num row x option = some o2 →
        o2 = o.DrawIntWith sprintfBuf num row x option ∧
        CursorBeforeData o.address_ (o2.i2c_.log.drop o.i2c_.log.length)) ∧
      (∀ num row align option o2, o.DrawIntAlign num row align option = some o2 →
        o2 = o.DrawIntAlignWith sprintfBuf num row align option ∧
        CursorBeforeData o.address_ (o2.i2c_.log.drop o.i2c_.log.length)) ∧
      (∀ data row x max_row max_column, CursorBeforeData o.address_
        ((o.DrawData data row x max_row max_column).i2c_.log.drop o.i2c_.log.length)) ∧
      (∀ data row x, CursorBeforeData o.address_
        ((o.DrawQR data row x).i2c_.log.drop o.i2c_.log.length)) := by
  have hc : o.Clear = o.emit (screenTrace o.address_ 0x00) := OLED.screen_emit o 0x00
  have hf : o.Fill = o.emit (screenTrace o.address_ 0xFF) := OLED.screen_emit o 0xFF
  have htext : ∀ text row x reserve, CursorBeforeData o.address_
      ((o.DrawText text row x reserve).i2c_.log.drop o.i2c_.log.length) := by
    intro text row x reserve
    rw [OLED.DrawText_trace, OLED.emit_log, List.drop_left]
    exact text_cursorBeforeData _ _ _ _ _ _
  have halign : ∀ text row align reserve, CursorBeforeData o.address_
      ((o.DrawTextAlign text row align reserve).i2c_.log.drop o.i2c_.log.length) := by
    intro text row align reserve
    rw [OLED.DrawTextAlign_trace, OLED.emit_log, List.drop_left]
    exact text_cursorBeforeData _ _ _ _ _ _
  refine ⟨?_, ?_, ?_, htext, halign, ?_, ?_, ?_, ?_, ?_, ?_⟩
  · rw [hc, OLED.emit_log, List.drop_left]
    exact screenTrace_cursorBeforeData _ _
  · rw [hf, OLED.emit_log, List.drop_left]
    exact screenTrace_cursorBeforeData _ _
  · intro x y
    rw [OLED.DrawPoint_trace, OLED.emit_log, List.drop_left]
    exact cursorBeforeData_block _ _ _ _ (fun f hf => by
      rw [List.mem_singleton.mp hf]; rfl)
  · intro written num row x option
    exact htext _ _ _ _
  · intro written num row align option
    exact halign _ _ _ _
  · intro num row x option o2 h
    have e := OLED.DrawInt_eq_with o num row x option o2 h
    refine ⟨e, ?_⟩
    rw [e]
    exact htext _ _ _ _
  · intro num row align option o2 h
    have e := OLED.DrawIntAlign_eq_with o num row align option o2 h
    refine ⟨e, ?_⟩
    rw [e]
    exact halign _ _ _ _
  · intro data row x max_row max_column
    rw [OLED.DrawData_trace, OLED.emit_log, List.drop_left]
    exact blitTraceU8_cursorBeforeData _ _ _ _ _ _
  · intro data row x
    rw [OLED.DrawQR_eq, OLED.DrawData_trace, OLED.emit_log, List.drop_left]
    exact blitTraceU8_cursorBeforeData _ _ _ _ _ _

/-- C14 for `DrawInt(810, 4, 30, "%05d")`, whose result with the `sprintf` of this file is
defined, and for `DrawInt(255, 4, 30, "%x")` with a C library that writes "ff". -/
theorem OLED.cursor_before_data_witness :
    (sampleOLED.DrawInt 810 4 30 (cstr "%05d") =
        some (sampleOLED.DrawText [48, 48, 56, 49, 48, 0] 4 30 false) ∧
      CursorBeforeData sampleOLED.address_
        ((sampleOLED.DrawText [48, 48, 56, 49, 48, 0] 4 30 false).i2c_.log.drop
          sampleOLED.i2c_.log.length)) ∧
    CursorBeforeData sampleOLED.address_
      ((sampleOLED.DrawIntWith (fun _ _ => cstr "ff" ++ [0]) 255 4 30
        (cstr "%x")).i2c_.log.drop sampleOLED.i2c_.log.length) :=
  ⟨⟨rfl, ((OLED.cursor_before_data sampleOLED).2.2.2.2.2.2.2.1 810 4 30 (cstr "%05d") _
      rfl).2⟩,
   (OLED.cursor_before_data sampleOLED).2.2.2.2.2.1 (fun _ _ => cstr "ff" ++ [0]) 255 4 30
     (cstr "%x")⟩

/-! ## The controller's memory -/

theorem Controller.run_append (s : Controller) (t1 t2 : List BusWrite) :
    Controller.run s (t1 ++ t2) = Controller.run (Controller.run s t1) t2 := by
  simp [Controller.run, List.foldl_append]

theorem Controller.step_data (s : Controller) (addr d : Nat) :
    Controller.step s (dataFrame addr d) =
      { page := s.page,
        column := if s.column + 1 < 128 then s.column + 1 else 0,
        ram := fun p c => if p = s.page ∧ c = s.column then d else s.ram p c } := by
  simp [Controller.step, dataFrame]

/-- A cursor-set for an 8-bit column and a page in 0..7 moves the cursor there and leaves
the memory as it is. -/
theorem Controller.run_cursor (s : Controller) (addr x p : Nat) (hx : x < 256) (hp : p < 8) :
    Controller.run s (cursorFrames addr x p) = { page := p, column := x, ram := s.ram } := by
  have e1 : (0xB0 + p) % 256 = 0xB0 + p := by omega
  have e2 : x &&& 0x0F = x % 16 := and15_eq_mod x
  have e3 : (x >>> 4) &&& 0x0F = x / 16 := by
    rw [and15_eq_mod, shiftRight4_eq_div]
    omega
  have c1 : 0xB0 ≤ 0xB0 + p ∧ 0xB0 + p ≤ 0xB7 := by omega
  have c2 : ¬ (0xB0 ≤ x % 16 ∧ x % 16 ≤ 0xB7) := by omega
  have c3 : x % 16 ≤ 0x0F := by omega
  have c4 : ¬ (0xB0 ≤ 0x10 + x / 16 ∧ 0x10 + x / 16 ≤ 0xB7) := by omega
  have c5 : ¬ (0x10 + x / 16 ≤ 0x0F) := by omega
  have c6 : 0x10 ≤ 0x10 + x / 16 ∧ 0x10 + x / 16 ≤ 0x1F := by omega
  simp only [Controller.run, cursorFrames, cmdFrame, List.foldl_cons, List.foldl_nil,
    Controller.step, e1, e2, e3, c1, c2, c3, c4, c5, c6, if_true, if_false, and_self,
    Nat.reduceEqDiff, OfNat.ofNat_ne_zero]
  simp
  omega

/-- A run of data bytes that stays within the 128 columns of the page is stored in
consecutive columns from the cursor on; the rest of the memory is unchanged. -/
theorem Controller.run_data (addr : Nat) : ∀ (ds : List Nat) (s : Controller),
    s.column + ds.length ≤ 128 → ∀ p c,
      (Controller.run s (ds.map (dataFrame addr))).ram p c =
        if p = s.page ∧ s.column ≤ c ∧ c < s.column + ds.length
        then ds.getD (c - s.column) 0 else s.ram p c := by
  intro ds
  induction ds with
  | nil =>
    intro s _ p c
    have hf : ¬ (p = s.page ∧ s.column ≤ c ∧ c < s.column + ([] : List Nat).length) := by
      simp
    rw [if_neg hf]
    rfl
  | cons d ds ih =>
    intro s h p c
    have hrun : Controller.run s ((d :: ds).map (dataFrame addr)) =
        Controller.run (Controller.step s (dataFrame addr d)) (ds.map (dataFrame addr)) := rfl
    rw [hrun, Controller.step_data]
    simp only [List.length_cons] at h ⊢
    by_cases hw : s.column + 1 < 128
    · rw [ih _ (by simp only [hw, if_true]; omega)]
      simp only [hw, if_true]
      by_cases hp : p = s.page
      · by_cases hc : c = s.column
        · have hf : ¬ (p = s.page ∧ s.column + 1 ≤ c ∧ c < s.column + 1 + ds.length) := by
            omega
          have ht : p = s.page ∧ s.column ≤ c ∧ c < s.column + (ds.length + 1) := by omega
          rw [if_neg hf, if_pos ht, if_pos ⟨hp, hc⟩, hc]
          simp
        · by_cases hin : s.column + 1 ≤ c ∧ c < s.column + 1 + ds.length
          · have ht : p = s.page ∧ s.column ≤ c ∧ c < s.column + (ds.length + 1) := by omega
            have hidx : c - s.column = (c - (s.column + 1)) + 1 := by omega
            rw [if_pos ⟨hp, hin⟩, if_pos ht, hidx]
            rfl
          · have hf : ¬ (p = s.page ∧ s.column + 1 ≤ c ∧ c < s.column + 1 + ds.length) :=
              fun hh => hin hh.2
            have hf2 : ¬ (p = s.page ∧ s.column ≤ c ∧ c < s.column + (ds.length + 1)) := by
              omega
            have hf3 : ¬ (p = s.page ∧ c = s.column) := fun hh => hc hh.2
            rw [if_neg hf, if_neg hf2, if_neg hf3]
      · have hf : ¬ (p = s.page ∧ s.column + 1 ≤ c ∧ c < s.column + 1 + ds.length) :=
          fun hh => hp hh.1
        have hf2 : ¬ (p = s.page ∧ s.column ≤ c ∧ c < s.column + (ds.length + 1)) :=
          fun hh => hp hh.1
        have hf3 : ¬ (p = s.page ∧ c = s.column) := fun hh => hp hh.1
        rw [if_neg hf, if_neg hf2, if_neg hf3]
    · have hnil : ds = [] := List.length_eq_zero.mp (by omega)
      subst hnil
      simp only [List.map_nil, List.length_nil, Controller.run, List.foldl_nil]
      by_cases hpc : p = s.page ∧ c = s.column
      · have ht : p = s.page ∧ s.column ≤ c ∧ c < s.column + (0 + 1) := by omega
        rw [if_pos hpc, if_pos ht, hpc.2]
        simp
      · have hf : ¬ (p = s.page ∧ s.column ≤ c ∧ c < s.column + (0 + 1)) := by omega
        rw [if_neg hpc, if_neg hf]

theorem Controller.run_tile (s : Controller) (addr : Nat) (tile : Nat → Nat) (x p : Nat)
    (hx : x + 8 ≤ 128) (hp : p < 8) (i : Nat) (hi : i < 8) :
    (Controller.run s (tileFrames addr tile x p)).ram p (x + i) = tile i := by
  have hmap : (List.range 8).map (fun i => dataFrame addr (tile i)) =
      ((List.range 8).map tile).map (dataFrame addr) := by
    rw [List.map_map]
    rfl
  unfold tileFrames
  rw [Controller.run_append, Controller.run_cursor s addr x p (by omega) hp, hmap,
    Controller.run_data addr _ _ (by simp; omega)]
  have hc : p = p ∧ x ≤ x + i ∧ x + i < x + ((List.range 8).map tile).length := by
    simp
    omega
  show (if p = p ∧ x ≤ x + i ∧ x + i < x + ((List.range 8).map tile).length
    then ((List.range 8).map tile).getD (x + i - x) 0 else s.ram p (x + i)) = tile i
  rw [if_pos hc, Nat.add_sub_cancel_left]
  interval_cases i <;> rfl

theorem OLED.DrawPoint_twice (o : OLED) (x y1 y2 : Nat) :
    ((o.DrawPoint x y1).DrawPoint x y2).i2c_.log.drop o.i2c_.log.length =
      (cursorFrames o.address_ x ((y1 / 8) % 256) ++
          [dataFrame o.address_ ((0x01 <<< (y1 % 8)) % 256)]) ++
        (cursorFrames o.address_ x ((y2 / 8) % 256) ++
          [dataFrame o.address_ ((0x01 <<< (y2 % 8)) % 256)]) := by
  rw [OLED.DrawPoint_trace o x y1, OLED.DrawPoint_trace _ x y2, OLED.emit_emit, OLED.emit_log,
    List.drop_left]
  rfl

/-- The controller after the frames of one `DrawPoint(x, y)` on the display: the cursor
was set to column `x` of page `y / 8` and the byte there is `1 << (y % 8)`. -/
theorem Controller.run_point (s : Controller) (addr x y : Nat) (hx : x < 128) (hy : y < 64) :
    (Controller.run s (cursorFrames addr x ((y / 8) % 256) ++
        [dataFrame addr ((0x01 <<< (y % 8)) % 256)])).ram (y / 8) x = 1 <<< (y % 8) := by
  have hp : (y / 8) % 256 = y / 8 := by omega
  have hb := one_shiftLeft_lt (y % 8) (Nat.mod_lt _ (by decide))
  have hone : ∀ (s : Controller) (f : BusWrite), Controller.run s [f] = Controller.step s f :=
    fun _ _ => rfl
  rw [Controller.run_append, hp, hb, Controller.run_cursor s addr x (y / 8) (by omega)
    (by omega), hone, Controller.step_data]
  simp

/-- C13: on the controller memory of 8 pages by 128 columns in which a data byte replaces
the byte at the cursor, for every `x < 128` and all `y1, y2 < 64` in the same page
(`y1 / 8 = y2 / 8`) with `y1 ≠ y2`: after the frames of `DrawPoint(x, y1)` the byte at
column `x` of page `y1 / 8` is `1 << (y1 % 8)`, and after the frames of `DrawPoint(x, y1)`
followed by `DrawPoint(x, y2)` it is `1 << (y2 % 8)`: pixel (x, y2) is on and pixel
(x, y1) is off, the second point has overwritten the first. -/
theorem OLED.DrawPoint_overwrites (o : OLED) (s : Controller) (x y1 y2 : Nat)
    (hx : x < 128) (h1 : y1 < 64) (h2 : y2 < 64) (hpage : y1 / 8 = y2 / 8) (hne : y1 ≠ y2) :
    (Controller.run s ((o.DrawPoint x y1).i2c_.log.drop o.i2c_.log.length)).ram (y1 / 8) x =
        1 <<< (y1 % 8) ∧
      (Controller.run s
        (((o.DrawPoint x y1).DrawPoint x y2).i2c_.log.drop o.i2c_.log.length)).ram
          (y1 / 8) x = 1 <<< (y2 % 8) ∧
      ((Controller.run s
        (((o.DrawPoint x y1).DrawPoint x y2).i2c_.log.drop o.i2c_.log.length)).ram
          (y2 / 8) x).testBit (y2 % 8) = true ∧
      ((Controller.run s
        (((o.DrawPoint x y1).DrawPoint x y2).i2c_.log.drop o.i2c_.log.length)).ram
          (y1 / 8) x).testBit (y1 % 8) = false := by
  have hfirst : (o.DrawPoint x y1).i2c_.log.drop o.i2c_.log.length =
      cursorFrames o.address_ x ((y1 / 8) % 256) ++
        [dataFrame o.address_ ((0x01 <<< (y1 % 8)) % 256)] := by
    rw [OLED.DrawPoint_trace, OLED.emit_log, List.drop_left]
  have hboth : (Controller.run s
      (((o.DrawPoint x y1).DrawPoint x y2).i2c_.log.drop o.i2c_.log.length)).ram
        (y2 / 8) x = 1 <<< (y2 % 8) := by
    rw [OLED.DrawPoint_twice, Controller.run_append]
    exact Controller.run_point _ _ x y2 hx h2
  have hmod : y1 % 8 ≠ y2 % 8 := by omega
  refine ⟨?_, ?_, ?_, ?_⟩
  · rw [hfirst]
    exact Controller.run_point s _ x y1 hx h1
  · rw [hpage]
    exact hboth
  · rw [hboth, Nat.one_shiftLeft, Nat.testBit_two_pow_self]
  · rw [hpage, hboth, Nat.one_shiftLeft, Nat.testBit_two_pow]
    simp
    exact fun h => hmod h.symm

/-- C13 at the points (72, 43) and (72, 45), both in page 5, on a blank memory: the byte
at column 72 of page 5 ends as 0x20. -/
theorem OLED.DrawPoint_overwrites_witness :
    (72 < 128 ∧ 43 < 64 ∧ 45 < 64 ∧ 43 / 8 = 45 / 8 ∧ 43 ≠ 45) ∧
    (Controller.run ⟨0, 0, fun _ _ => 0⟩
      (((sampleOLED.DrawPoint 72 43).DrawPoint 72 45).i2c_.log.drop
        sampleOLED.i2c_.log.length)).ram (43 / 8) 72 = 1 <<< (45 % 8) :=
  ⟨by decide,
   (OLED.DrawPoint_overwrites sampleOLED ⟨0, 0, fun _ _ => 0⟩ 72 43 45 (by decide) (by decide)
      (by decide) (by decide) (by decide)).2.1⟩

/-! ## A blit within the display -/

theorem tile_index_lt (r c max_row max_column : Nat) (hr : r < max_row)
    (hc : c < max_column) : r * max_column + c < max_row * max_column := by
  have h1 : (r + 1) * max_column ≤ max_row * max_column := Nat.mul_le_mul_right _ hr
  have h2 : (r + 1) * max_column = r * max_column + max_column := by ring
  omega

theorem blitTrace_in_bounds (addr : Nat) (data : Nat → Nat → Nat)
    (row x max_row max_column : Nat) (hx : x + max_column * 8 ≤ 128)
    (hrow : row + max_row ≤ 8) :
    blitTrace addr data row x max_row max_column =
      (List.range max_row).flatMap (fun r =>
        (List.range max_column).flatMap (fun c =>
          tileFrames addr (data (r * max_column + c)) (c * 8 + x) (r + row))) := by
  unfold blitTrace
  apply List.flatMap_congr
  intro r hr
  apply List.flatMap_congr
  intro c hc
  have hr2 : r < max_row := List.mem_range.mp hr
  have hc2 : c < max_column := List.mem_range.mp hc
  have e1 : (c * 8 + x) % 256 = c * 8 + x := by omega
  have e2 : (r + row) % 256 = r + row := by omega
  rw [e1, e2]

/-- C15: for every `row`, `x`, `max_row`, `max_column` with `x + max_column*8 ≤ 128` and
`row + max_row ≤ 8`, `DrawData` appends, tile by tile in row-major order, the cursor-set for
column `c*8 + x` and page `r + row` and the eight bytes of tile `r*max_column + c`, and for
every tile (r, c) of the grid: neither `c*8 + x` nor `r + row` wraps as an 8-bit value, the
column is at most 120 and the page at most 7, so the page command lies in 0xB0..0xB7; the
last column of the tile, `c*8 + x + 7`, is at most 127; the tile index is smaller than
`max_row * max_column`; and on the controller the eight bytes of the tile are stored at
columns `c*8 + x` to `c*8 + x + 7` of page `r + row`. -/
theorem OLED.DrawData_in_bounds (o : OLED) (data : Nat → Nat → Nat)
    (row x max_row max_column : Nat) (hx : x + max_column * 8 ≤ 128)
    (hrow : row + max_row ≤ 8) :
    (o.DrawData data row x max_row max_column).i2c_.log = o.i2c_.log ++
        (List.range max_row).flatMap (fun r =>
          (List.range max_column).flatMap (fun c =>
            tileFrames o.address_ (data (r * max_column + c)) (c * 8 + x) (r + row))) ∧
      (∀ r c, r < max_row → c < max_column →
        (c * 8 + x) % 256 = c * 8 + x ∧ c * 8 + x ≤ 120 ∧
        (r + row) % 256 = r + row ∧ r + row ≤ 7 ∧
        (0xB0 + (r + row)) % 256 = 0xB0 + (r + row) ∧
        0xB0 ≤ 0xB0 + (r + row) ∧ 0xB0 + (r + row) ≤ 0xB7 ∧
        c * 8 + x + 7 ≤ 127 ∧
        r * max_column + c < max_row * max_column ∧
        (∀ (s : Controller) (i : Nat), i < 8 →
          (Controller.run s (tileFrames o.address_ (data (r * max_column + c)) (c * 8 + x)
            (r + row))).ram (r + row) (c * 8 + x + i) = data (r * max_column + c) i)) := by
  constructor
  · rw [OLED.DrawData_emit o data row x max_row max_column (by omega) (by omega),
      OLED.emit_log, blitTrace_in_bounds _ _ _ _ _ _ hx hrow]
  · intro r c hr hc
    refine ⟨by omega, by omega, by omega, by omega, by omega, by omega, by omega, by omega,
      tile_index_lt r c max_row max_column hr hc, ?_⟩
    intro s i hi
    exact Controller.run_tile s _ _ (c * 8 + x) (r + row) (by omega) (by omega) i hi

/-- C15 for the full-screen blit (8 by 16 tiles at page 0, column 0), at its last tile
(r, c) = (7, 15): column 120, page 7, tile index 127 < 128. -/
theorem OLED.DrawData_in_bounds_witness :
    (0 + 16 * 8 ≤ 128 ∧ 0 + 8 ≤ 8) ∧ (7 < 8 ∧ 15 < 16) ∧
    (15 * 8 + 0 ≤ 120 ∧ 7 + 0 ≤ 7 ∧ 15 * 8 + 0 + 7 ≤ 127 ∧ 7 * 16 + 15 < 8 * 16) :=
  have h := (OLED.DrawData_in_bounds sampleOLED (fun t i => (t + i) % 256) 0 0 8 16
    (by decide) (by decide)).2 7 15 (by decide) (by decide)
  ⟨by decide, by decide, h.2.1, h.2.2.2.1, h.2.2.2.2.2.2.2.1, h.2.2.2.2.2.2.2.2.1⟩
